import Mathlib

/-!
# Verification of the ShapeMapper mutation-processing core

Shallow embedding of the C++ core of ShapeMapper (files `Mutation.h`,
`MutationProcessing.h`, `MutationParser.h`, `MutationCounter.h`, `Read.h`,
`PrimerPair.h`) into Lean, with theorems settling the claims of the
natural-language specification.

Conventions used throughout the embedding:
* C++ `std::string` is modelled as `List Char`; `std::vector<bool>` as
  `List Bool`.
* C++ `int` is modelled as `Int` (no overflow occurs in the regimes the
  claims quantify over); `size_t` comparisons that implicitly convert a
  signed `int` are modelled through `usizeOfInt`, which reproduces the
  two's-complement conversion to a 64-bit unsigned integer.
* `std::vector::at` / `std::string::at` wrapped in `try { ... } catch
  (std::out_of_range) { }` is modelled as a guarded update/read that
  skips silently when the (possibly negative) index is out of range.
* `std::string::substr(pos, count)` throws `std::out_of_range` when
  `pos > size()`; where the source does not catch that exception the
  embedding returns `Except`/`Option` failure.
-/

namespace ShapeMapper

/-- Conversion of a C++ `int` to `size_t` (64-bit unsigned), as performed
implicitly by comparisons such as `d > seq.length()` in `Mutation.h`. -/
def usizeOfInt (n : Int) : Nat := (n % (2 : Int) ^ 64).toNat

/-- ASCII code of a quality character, as the C++ `char` value used in
arithmetic such as `qual[i] - 33`. -/
def charVal (c : Char) : Int := (c.toNat : Int)

/-- `Mutation` (Mutation.h lines 34-243): a deviation from the alignment
target between two unchanged positions `left` and `right` (exclusive). -/
structure Mutation where
  left : Int
  right : Int
  seq : List Char
  qual : List Char
  tag : String
  ambig : Bool
deriving Repr, DecidableEq

/-- `Mutation::isAmbiguous` (Mutation.h lines 193-197).  The C++ source
compares the `int` `d` with the `size_t` `seq.length()`, so in the
comparisons `d > seq.length()` and `d < seq.length()` the value `d` is
converted to `size_t`; the final `d > 0` is a signed comparison. -/
def Mutation.isAmbiguous (m : Mutation) : Bool :=
  (decide (usizeOfInt (m.right - m.left - 1) > m.seq.length) &&
    decide (m.seq.length > 0)) ||
  (decide (usizeOfInt (m.right - m.left - 1) < m.seq.length) &&
    decide (m.right - m.left - 1 > 0))

/-- `std::string::substr(pos, count)` for an `Int` position as the C++
call sites produce it: a negative `pos` converts to a huge `size_t` and
throws; `pos > size` throws; otherwise the result is clamped to the end
of the string.  A negative `count` converts to a huge `size_t`, which
takes everything to the end of the string. -/
def cppSubstr (s : List Char) (pos : Int) (count : Int) : Option (List Char) :=
  if pos < 0 ∨ pos > (s.length : Int) then
    none
  else
    let rest := s.drop pos.toNat
    some (if count < 0 then rest else rest.take count.toNat)

/-- `Mutation::classify` (Mutation.h lines 204-241).  Classification of a
mutation given the local target sequence and its left position.  The
deletion branch uses `substr` (throws when the index is negative or past
the end); the single-nucleotide-mismatch branch uses unchecked
`operator[]`, which is undefined behaviour out of range and is modelled
as an error as well.  The final `else` throw is unreachable. -/
def Mutation.classify (m : Mutation) (local_target : List Char)
    (target_pos : Int) : Except String String :=
  let d : Int := m.right - m.left - 1
  let len : Nat := m.seq.length
  if d = 1 ∧ len = 0 then
    -- deletion of a single nucleotide
    match cppSubstr local_target (m.left + 1 - target_pos) 1 with
    | none => .error "Error: Unable to classify mutation. Mutation location falls outside local target sequence."
    | some s => .ok ((s ++ ['-']).asString)
  else if d = 0 ∧ len = 1 then
    -- insertion of a single nucleotide
    .ok (('-' :: m.seq).asString)
  else if d = 1 ∧ len = 1 then
    -- single-nucleotide mismatch
    if m.seq = ['N'] then
      .ok "N_match"
    else
      -- unchecked local_target[left + 1 - target_pos] (UB out of range)
      match (cppSubstr local_target (m.left + 1 - target_pos) 1).bind List.head? with
      | none => .error "Error: Unable to classify mutation. Mutation location falls outside local target sequence."
      | some c => .ok ((c :: m.seq).asString)
  else if usizeOfInt d > 1 ∧ len = 0 then
    .ok "multinuc_deletion"
  else if d = 0 ∧ len > 1 then
    .ok "multinuc_insertion"
  else if usizeOfInt d = len then
    .ok "multinuc_mismatch"
  else if len < usizeOfInt d then
    .ok "complex_deletion"
  else if len > usizeOfInt d then
    .ok "complex_insertion"
  else
    .error "Error: Unknown error. Unable to classify mutation."

/-- `operator==(Mutation, Mutation)` (Mutation.h lines 245-247): equality
looks only at `left`, `right` and `seq`. -/
def Mutation.eqOp (a b : Mutation) : Bool :=
  decide (a.left = b.left) && decide (a.right = b.right) && decide (a.seq = b.seq)

/-- Lexicographic `operator<` on `std::string` (by `char` value). -/
def strLt : List Char → List Char → Bool
  | [], [] => false
  | [], _ :: _ => true
  | _ :: _, [] => false
  | a :: as, b :: bs =>
    if a < b then true
    else if b < a then false
    else strLt as bs

/-- `Mutation::operator<` (Mutation.h lines 129-155): compares `left`,
`right`, `seq` and finally `qual` (but not `tag`/`ambig`). -/
def Mutation.ltOp (a b : Mutation) : Bool :=
  if a.left < b.left then true
  else if b.left < a.left then false
  else if a.right < b.right then true
  else if b.right < a.right then false
  else if strLt a.seq b.seq then true
  else if strLt b.seq a.seq then false
  else if strLt a.qual b.qual then true
  else if strLt b.qual a.qual then false
  else false

/-- `VariantCounter::updateCounts` (MutationCounter.h lines 146-159)
blanks the quality string of a mutation before using it as a map key. -/
def Mutation.blankQual (m : Mutation) : Mutation := { m with qual := [] }

/-! ## Claim C4: `isAmbiguous` characterisation -/

/-- **C4.** For every mutation (well-formed in the sense of the data
model: `left < right`, so `d := right − left − 1 ≥ 0`), `isAmbiguous`
returns `true` iff `(d > len(seq) ∧ len(seq) > 0) ∨ (len(seq) > d ∧ d > 0)`;
in particular it is `false` for a one-base substitution (`d = 1`,
`len = 1`), for a pure insertion with `d = 0`, and for a pure deletion
with `len(seq) = 0`. -/
theorem isAmbiguous_iff (m : Mutation) (h : m.left < m.right)
    (hint : m.right - m.left ≤ 2 ^ 31) :
    (m.isAmbiguous = true ↔
      ((m.right - m.left - 1 > (m.seq.length : Int) ∧ m.seq.length > 0) ∨
       ((m.seq.length : Int) > m.right - m.left - 1 ∧ m.right - m.left - 1 > 0))) ∧
    (m.right - m.left - 1 = 1 ∧ m.seq.length = 1 → m.isAmbiguous = false) ∧
    (m.right - m.left - 1 = 0 → m.isAmbiguous = false) ∧
    (m.seq.length = 0 → m.isAmbiguous = false) := by
  have hd : (0 : Int) ≤ m.right - m.left - 1 := by omega
  have husize : usizeOfInt (m.right - m.left - 1) = (m.right - m.left - 1).toNat := by
    unfold usizeOfInt
    rw [Int.emod_eq_of_lt hd (by omega)]
  constructor
  · unfold Mutation.isAmbiguous
    rw [husize]
    simp only [Bool.or_eq_true, Bool.and_eq_true, decide_eq_true_eq]
    omega
  · refine ⟨?_, ?_, ?_⟩ <;> intro hc <;>
      · unfold Mutation.isAmbiguous
        rw [husize]
        simp only [Bool.or_eq_true, Bool.and_eq_true, decide_eq_true_eq,
          Bool.or_eq_false_iff, Bool.and_eq_false_iff, decide_eq_false_iff_not]
        omega

/-- Witness for C4 at a concrete mutation: a single-base substitution
`(4, 6, "G", "I")` with `d = 1`. -/
theorem isAmbiguous_iff_witness :
    ((4 : Int) < 6) ∧ ((6 : Int) - 4 ≤ 2 ^ 31) ∧
    ((Mutation.mk 4 6 ['G'] ['I'] "" false).isAmbiguous = false) := by
  refine ⟨by norm_num, by norm_num, ?_⟩
  have h := isAmbiguous_iff (Mutation.mk 4 6 ['G'] ['I'] "" false)
    (by norm_num) (by norm_num)
  exact h.2.1 (by constructor <;> rfl)

/-! ## Claim C2: `classify` agrees with the arithmetic table of spec §3 -/

/-- The classification table of spec §3, written from the spec's words:
given the reference base `refBase` (the base at target position
`left + 1`), `d := right − left − 1` and the replacement `seq`, the table
yields a tag (or nothing, outside the table's nine rows). -/
def specTableTag (refBase : Char) (d : Int) (seq : List Char) : Option String :=
  if d = 1 ∧ seq.length = 0 then some ([refBase, '-']).asString
  else if d = 0 ∧ seq.length = 1 then some ('-' :: seq).asString
  else if d = 1 ∧ seq.length = 1 ∧ seq = ['N'] then some "N_match"
  else if d = 1 ∧ seq.length = 1 then some (refBase :: seq).asString
  else if d > 1 ∧ seq.length = 0 then some "multinuc_deletion"
  else if d = 0 ∧ seq.length > 1 then some "multinuc_insertion"
  else if d = (seq.length : Int) ∧ seq.length > 1 then some "multinuc_mismatch"
  else if 0 < (seq.length : Int) ∧ (seq.length : Int) < d then some "complex_deletion"
  else if (seq.length : Int) > d ∧ d > 0 then some "complex_insertion"
  else none

theorem take_one_drop (l : List Char) (n : Nat) (h : n < l.length) :
    (l.drop n).take 1 = [l.getD n 'A'] := by
  induction l generalizing n with
  | nil => simp at h
  | cons a as ih =>
    cases n with
    | zero => simp [List.getD]
    | succ k =>
      simp only [List.drop_succ_cons, List.getD_cons_succ]
      exact ih k (by simpa using h)

/-- **C2.** For every mutation whose relevant position lies inside the
local target (and whose span is within the C++ `int` range), `classify`
returns exactly the tag of the spec §3 table, with the reference base
read at target offset `left + 1 − target_pos`. -/
theorem classify_eq_specTableTag (m : Mutation) (target : List Char) (pos : Int)
    (hlo : 0 ≤ m.left + 1 - pos) (hhi : m.left + 1 - pos < (target.length : Int))
    (hint : m.right - m.left ≤ 2 ^ 31) (t : String)
    (ht : specTableTag (target.getD (m.left + 1 - pos).toNat 'A')
            (m.right - m.left - 1) m.seq = some t) :
    m.classify target pos = .ok t := by
  set i : Int := m.left + 1 - pos with hidef
  set d : Int := m.right - m.left - 1 with hddef
  have hsub : cppSubstr target i 1 = some [target.getD i.toNat 'A'] := by
    unfold cppSubstr
    rw [if_neg (by omega)]
    simp only [show ¬((1 : Int) < 0) from by norm_num, if_false, Int.toNat_one]
    rw [take_one_drop target i.toNat (by omega)]
  have hhead : (cppSubstr target i 1).bind List.head? =
      some (target.getD i.toNat 'A') := by rw [hsub]; rfl
  unfold specTableTag at ht
  unfold Mutation.classify
  rw [← hidef, ← hddef]
  by_cases h1 : d = 1 ∧ m.seq.length = 0
  · rw [if_pos h1] at ht ⊢
    rw [hsub]
    simpa using ht
  rw [if_neg h1] at ht ⊢
  by_cases h2 : d = 0 ∧ m.seq.length = 1
  · rw [if_pos h2] at ht ⊢
    simpa using ht
  rw [if_neg h2] at ht ⊢
  by_cases h3 : d = 1 ∧ m.seq.length = 1
  · rw [if_pos h3]
    by_cases hN : m.seq = ['N']
    · rw [if_pos (⟨h3.1, h3.2, hN⟩ : d = 1 ∧ m.seq.length = 1 ∧ m.seq = ['N'])] at ht
      rw [if_pos hN]
      simpa using ht
    · rw [if_neg (by tauto : ¬ (d = 1 ∧ m.seq.length = 1 ∧ m.seq = ['N']))] at ht
      rw [if_pos h3] at ht
      rw [if_neg hN, hhead]
      simpa using ht
  rw [if_neg (by tauto : ¬ (d = 1 ∧ m.seq.length = 1 ∧ m.seq = ['N'])),
    if_neg h3] at ht
  rw [if_neg h3]
  -- from here on `d ≥ 0` in every remaining table row, so the implicit
  -- size_t conversion is the identity
  have husize : ∀ hd0 : 0 ≤ d, usizeOfInt d = d.toNat := by
    intro hd0
    unfold usizeOfInt
    rw [Int.emod_eq_of_lt hd0 (by omega)]
  by_cases h4 : d > 1 ∧ m.seq.length = 0
  · rw [if_pos h4] at ht
    rw [if_pos ⟨by rw [husize (by omega)]; omega, h4.2⟩]
    simpa using ht
  rw [if_neg h4] at ht
  by_cases h5 : d = 0 ∧ m.seq.length > 1
  · rw [if_pos h5] at ht
    rw [if_neg (by rw [husize (by omega)]; omega), if_pos h5]
    simpa using ht
  rw [if_neg h5] at ht
  by_cases h6 : d = (m.seq.length : Int) ∧ m.seq.length > 1
  · rw [if_pos h6] at ht
    rw [if_neg (by rw [husize (by omega)]; omega),
      if_neg (by omega : ¬ (d = 0 ∧ m.seq.length > 1)),
      if_pos (by rw [husize (by omega)]; omega)]
    simpa using ht
  rw [if_neg h6] at ht
  by_cases h7 : 0 < (m.seq.length : Int) ∧ (m.seq.length : Int) < d
  · rw [if_pos h7] at ht
    rw [if_neg (by rw [husize (by omega)]; omega),
      if_neg (by omega : ¬ (d = 0 ∧ m.seq.length > 1)),
      if_neg (by rw [husize (by omega)]; omega),
      if_pos (by rw [husize (by omega)]; omega)]
    simpa using ht
  rw [if_neg h7] at ht
  by_cases h8 : (m.seq.length : Int) > d ∧ d > 0
  · rw [if_pos h8] at ht
    rw [if_neg (by rw [husize (by omega)]; omega),
      if_neg (by omega : ¬ (d = 0 ∧ m.seq.length > 1)),
      if_neg (by rw [husize (by omega)]; omega),
      if_neg (by rw [husize (by omega)]; omega),
      if_pos (by rw [husize (by omega)]; omega)]
    simpa using ht
  rw [if_neg h8] at ht
  simp at ht

/-- Witness for C2: the single-base substitution `(7, 9, "G", "I")`
against target `ATGCATGCATGCATGC` at position 0 classifies as `"AG"`
(reference base `A` at offset 8). -/
theorem classify_eq_specTableTag_witness :
    (Mutation.mk 7 9 ['G'] ['I'] "" false).classify
      "ATGCATGCATGCATGC".toList 0 = .ok "AG" := by
  apply classify_eq_specTableTag (Mutation.mk 7 9 ['G'] ['I'] "" false)
    "ATGCATGCATGCATGC".toList 0
    (by norm_num) (by norm_num) (by norm_num)
  decide

/-! ## Claim C10: mutation equality ignores `qual`, the ordering does not -/

/-- **C10.** `operator==` holds iff `left`, `right` and `seq` agree
(ignoring `qual`, `tag`, `ambig`), while `operator<` does compare
`qual`: the concrete mutations `(3, 5, "G", "A")` and `(3, 5, "G", "I")`
compare equal under `==` yet are strictly ordered (hence distinct keys in
the variant counter's map), and blanking `qual` (as
`VariantCounter::updateCounts` does) makes them order-equivalent. -/
theorem eqOp_iff_and_ltOp_distinguishes :
    (∀ a b : Mutation, a.eqOp b = true ↔
      (a.left = b.left ∧ a.right = b.right ∧ a.seq = b.seq)) ∧
    ((Mutation.mk 3 5 ['G'] ['A'] "" false).eqOp
       (Mutation.mk 3 5 ['G'] ['I'] "" false) = true) ∧
    ((Mutation.mk 3 5 ['G'] ['A'] "" false).ltOp
       (Mutation.mk 3 5 ['G'] ['I'] "" false) = true) ∧
    (Mutation.mk 3 5 ['G'] ['A'] "" false ≠ Mutation.mk 3 5 ['G'] ['I'] "" false) ∧
    ((Mutation.mk 3 5 ['G'] ['A'] "" false).blankQual.ltOp
       (Mutation.mk 3 5 ['G'] ['I'] "" false).blankQual = false) ∧
    ((Mutation.mk 3 5 ['G'] ['I'] "" false).blankQual.ltOp
       (Mutation.mk 3 5 ['G'] ['A'] "" false).blankQual = false) := by
  refine ⟨?_, by decide, by decide, by decide, by decide, by decide⟩
  intro a b
  unfold Mutation.eqOp
  simp [Bool.and_eq_true, decide_eq_true_eq, and_assoc]

/-! ## Claim C7: `stripPrimers` (MutationProcessing.h lines 213-261) -/

/-- `PrimerPair` (PrimerPair.h lines 26-71): inclusive forward and
reverse primer reference ranges. -/
structure PrimerPair where
  fw_left : Int
  fw_right : Int
  rv_left : Int
  rv_right : Int
deriving Repr, DecidableEq

/-- One depth-zeroing loop of `stripPrimers`: walking the vector, a cell
at reference position `pos` (the list starts at position `start`) is set
to `0` when `p pos` holds.  Both loops in the source guard each write
with `try { depth.at(i) = 0; } catch (std::out_of_range) { }` and iterate
over all indices whose reference position satisfies the bound, so their
net effect is exactly this positionwise form. -/
def zeroIf (p : Int → Bool) (start : Int) : List Bool → List Bool
  | [] => []
  | d :: rest => (if p start then false else d) :: zeroIf p (start + 1) rest

/-- `mutation::stripPrimers` (MutationProcessing.h lines 213-261).
Returns the stripped mutation vector and the new depth vector. -/
def stripPrimers (mutations : List Mutation) (left : Int)
    (depth_in : List Bool) (pp : PrimerPair) : List Mutation × List Bool :=
  if pp.fw_left > -1 then
    -- zero depth over positions ≤ fw_right, then over positions ≥ rv_left
    let depth1 := zeroIf (fun pos => decide (pos ≤ pp.fw_right)) left depth_in
    let depth2 := zeroIf (fun pos => decide (pos ≥ pp.rv_left)) left depth1
    (mutations.filter
       (fun m => decide (m.right < pp.rv_left) && decide (m.left > pp.fw_right)),
     depth2)
  else
    (mutations, depth_in)

theorem zeroIf_length (p : Int → Bool) (start : Int) (l : List Bool) :
    (zeroIf p start l).length = l.length := by
  induction l generalizing start with
  | nil => rfl
  | cons d rest ih => simp [zeroIf, ih]

theorem zeroIf_getD (p : Int → Bool) (start : Int) (l : List Bool)
    (i : Nat) (hi : i < l.length) :
    (zeroIf p start l).getD i false =
      if p (start + i) then false else l.getD i false := by
  induction l generalizing start i with
  | nil => simp at hi
  | cons d rest ih =>
    cases i with
    | zero => simp [zeroIf]
    | succ k =>
      have := ih (start + 1) k (by simpa using hi)
      simpa [zeroIf, add_assoc, add_comm, add_left_comm] using this

/-- **C7 (counterexample).** The claim "a mutation is retained iff its
span does not intersect either primer range" is false: with the record at
`left = 0` over 10 positions, primer pair `fw = [4,5]`, `rv = [7,8]`, the
mutation `(1, 3, "", "")` lies entirely left of the forward primer — its
span is disjoint from both primer ranges (`3 < 4` and `3 < 7`) — yet
`stripPrimers` drops it, because the code keeps a mutation only when
`m.right < rv_left ∧ m.left > fw_right`. -/
theorem stripPrimers_drops_nonintersecting :
    (PrimerPair.mk 4 5 7 8).fw_left > -1 ∧
    (Mutation.mk 1 3 [] [] "" false).right < (PrimerPair.mk 4 5 7 8).fw_left ∧
    (Mutation.mk 1 3 [] [] "" false).right < (PrimerPair.mk 4 5 7 8).rv_left ∧
    (stripPrimers [Mutation.mk 1 3 [] [] "" false] 0
      (List.replicate 10 true) (PrimerPair.mk 4 5 7 8)).1 = [] := by
  refine ⟨by decide, by decide, by decide, ?_⟩
  decide

/-- **C7 (amended).** In amplicon-primer trim mode with a matched primer
pair (`fw_left > −1`): depth entries are zeroed at exactly the positions
`≤ fw_right` or `≥ rv_left` (i.e. from the record's left bound through
`fw_right` and from `rv_left` through the record's right bound), and a
mutation is retained iff `m.right < rv_left ∧ m.left > fw_right` — its
span lies strictly between the two primer ranges.  (For mutations lying
between the primers this coincides with non-intersection; mutations
entirely outside the inter-primer window are dropped as well.) -/
theorem stripPrimers_spec (mutations : List Mutation) (left : Int)
    (depth_in : List Bool) (pp : PrimerPair) (hfw : pp.fw_left > -1) :
    (∀ m : Mutation, m ∈ (stripPrimers mutations left depth_in pp).1 ↔
       (m ∈ mutations ∧ m.right < pp.rv_left ∧ m.left > pp.fw_right)) ∧
    ((stripPrimers mutations left depth_in pp).2.length = depth_in.length) ∧
    (∀ i : Nat, i < depth_in.length →
       (stripPrimers mutations left depth_in pp).2.getD i false =
         if (i : Int) + left ≤ pp.fw_right ∨ (i : Int) + left ≥ pp.rv_left
         then false else depth_in.getD i false) := by
  unfold stripPrimers
  rw [if_pos hfw]
  refine ⟨?_, ?_, ?_⟩
  · intro m
    simp [List.mem_filter, and_assoc]
  · simp [zeroIf_length]
  · intro i hi
    have h1 : i < (zeroIf (fun pos => decide (pos ≤ pp.fw_right)) left depth_in).length := by
      rw [zeroIf_length]; exact hi
    rw [zeroIf_getD _ _ _ i h1, zeroIf_getD _ _ _ i hi]
    by_cases hrv : left + (i : Int) ≥ pp.rv_left <;>
      by_cases hfwr : left + (i : Int) ≤ pp.fw_right <;>
        simp [hrv, hfwr] <;> omega

/-- Witness for C7 (amended) at a concrete input: primer pair
`fw = [0,1]`, `rv = [8,9]`, record at `left = 0` over 10 positions, one
mutation `(3, 5, "A", "I")` strictly between the primers. -/
theorem stripPrimers_spec_witness :
    (PrimerPair.mk 0 1 8 9).fw_left > -1 ∧
    (Mutation.mk 3 5 ['A'] ['I'] "" false ∈
      (stripPrimers [Mutation.mk 3 5 ['A'] ['I'] "" false] 0
        (List.replicate 10 true) (PrimerPair.mk 0 1 8 9)).1) ∧
    ((stripPrimers [Mutation.mk 3 5 ['A'] ['I'] "" false] 0
        (List.replicate 10 true) (PrimerPair.mk 0 1 8 9)).2.getD 4 false = true) := by
  have h := stripPrimers_spec [Mutation.mk 3 5 ['A'] ['I'] "" false] 0
    (List.replicate 10 true) (PrimerPair.mk 0 1 8 9) (by decide)
  refine ⟨by decide, ?_, ?_⟩
  · rw [h.1]
    refine ⟨by decide, by decide, by decide⟩
  · rw [h.2.2 4 (by decide)]
    decide

/-! ## Claim C8: `ScanningDeque::updateLeftBound` (MutationCounter.h lines 64-74) -/

/-- `ScanningDeque` (MutationCounter.h lines 46-88): a deque of cells
whose front corresponds to alignment-target position `target_pos`. -/
structure ScanningDeque (α : Type) where
  target_pos : Int
  deq : List α

/-- `ScanningDeque::updateLeftBound` (MutationCounter.h lines 64-74).
`printValues(0, n-1)` of both subclasses renders cells `0 … n−1` in
increasing order, one row per cell, each row a function of the cell
alone; it is modelled by the `render` parameter. -/
def ScanningDeque.updateLeftBound {α : Type} (render : α → String)
    (sd : ScanningDeque α) (new_target_left : Int) :
    String × ScanningDeque α :=
  if new_target_left > sd.target_pos then
    let n_to_drop := (new_target_left - sd.target_pos).toNat
    (String.join ((sd.deq.take n_to_drop).map render),
     ⟨sd.target_pos + n_to_drop, sd.deq.drop n_to_drop⟩)
  else
    ("", sd)

/-- **C8.** For a scanning deque with front position `target_pos` and
`new_left > target_pos` (and enough cells, as the C++ source indexes the
first `new_left − target_pos` cells unconditionally), `updateLeftBound`
returns exactly the rendered rows of the cells at reference positions
`target_pos … new_left − 1` in increasing order, removes exactly those
front cells, and leaves `target_pos = new_left`. -/
theorem updateLeftBound_spec {α : Type} (render : α → String)
    (sd : ScanningDeque α) (new_left : Int)
    (h1 : new_left > sd.target_pos)
    (h2 : new_left - sd.target_pos ≤ (sd.deq.length : Int)) :
    (sd.updateLeftBound render new_left).1 =
      String.join ((sd.deq.take (new_left - sd.target_pos).toNat).map render) ∧
    (sd.updateLeftBound render new_left).2.target_pos = new_left ∧
    sd.deq = sd.deq.take (new_left - sd.target_pos).toNat ++
      (sd.updateLeftBound render new_left).2.deq ∧
    ((sd.updateLeftBound render new_left).2.deq.length : Int) +
      (new_left - sd.target_pos) = (sd.deq.length : Int) := by
  unfold ScanningDeque.updateLeftBound
  rw [if_pos h1]
  refine ⟨rfl, ?_, ?_, ?_⟩
  · show sd.target_pos + ((new_left - sd.target_pos).toNat : Int) = new_left
    omega
  · exact (List.take_append_drop _ sd.deq).symm
  · show ((sd.deq.drop (new_left - sd.target_pos).toNat).length : Int) + _ = _
    rw [List.length_drop]
    omega

/-- Witness for C8 at a concrete deque of three rows with front position
5, advanced to 7. -/
theorem updateLeftBound_spec_witness :
    (7 : Int) > (ScanningDeque.mk 5 ["r0", "r1", "r2"]).target_pos ∧
    (7 : Int) - (ScanningDeque.mk 5 ["r0", "r1", "r2"]).target_pos ≤ 3 ∧
    ((ScanningDeque.mk (5 : Int) ["r0", "r1", "r2"]).updateLeftBound id 7).2.target_pos
      = 7 := by
  refine ⟨by norm_num, by norm_num, ?_⟩
  have h := updateLeftBound_spec (id : String → String)
    (ScanningDeque.mk 5 ["r0", "r1", "r2"]) 7 (by norm_num) (by norm_num)
  exact h.2.1

/-! ## Claim C9: the mutation locator and `calcRightTargetPos`
(MutationParser.h) -/

/-- MD operation codes (MutationParser.h lines 45-47). -/
def MD_DELETION : Int := 0

def MD_MATCH : Int := 1

def MD_MISMATCH : Int := 2

/-- `MdOp` (MutationParser.h lines 65-69). -/
structure MdOp where
  op : Int
  length : Int
  seq : List Char
deriving Repr, DecidableEq

/-- `CigarOp` (MutationParser.h lines 73-76); `length` is `uint32_t`. -/
structure CigarOp where
  op : Char
  length : Nat
deriving Repr, DecidableEq

/-- `mutation_parser::detail::calcRightTargetPos` (MutationParser.h lines
243-266): left position plus the summed lengths of `M`, `D`, `N`, `P`,
`=`, `X` operators, minus one. -/
def calcRightTargetPos (left_target_pos : Int)
    (cigar_data : List CigarOp) : Int :=
  (cigar_data.foldl
    (fun right_target_pos c =>
      if c.op = 'M' ∨ c.op = 'D' ∨ c.op = 'N' ∨ c.op = 'P' ∨
         c.op = '=' ∨ c.op = 'X'
      then right_target_pos + (c.length : Int)
      else right_target_pos)
    left_target_pos) - 1

/-- Loop state of `locateMutations` (MutationParser.h lines 309-627):
all mutable locals of the source loop, including the temporaries `s` and
`q`, which persist across iterations (the `P` case reads the stale `q`).
Both reconstruction flags are `true`, as at every call site. -/
structure LocState where
  mutations : List Mutation
  ts : Int
  qs : Int
  mo : Nat
  in_match : Bool
  remaining_co_length : Int
  temp_md_mo : Int
  tmp_op : Int
  tmp_length : Int
  tmp_target_seq : List Char
  tmp_target_qual : List Char
  tmp_query_seq : List Char
  tmp_query_qual : List Char
  target_seq : List Char
  target_qual : List Char
  aligned_seq : List Char
  aligned_qual : List Char
  s : List Char
  q : List Char
deriving Repr, DecidableEq

/-- Initial state of the `locateMutations` loop (MutationParser.h lines
318-363). -/
def LocState.init (pos : Int) : LocState :=
  { mutations := [], ts := pos, qs := 0, mo := 0, in_match := false,
    remaining_co_length := 0, temp_md_mo := -1, tmp_op := -1,
    tmp_length := 0, tmp_target_seq := [], tmp_target_qual := [],
    tmp_query_seq := [], tmp_query_qual := [], target_seq := [],
    target_qual := [], aligned_seq := [], aligned_qual := [],
    s := [], q := [] }

/-- Reload of the `tmp_*` locals from MD op `mo` (MutationParser.h lines
383-389 and 397-403). -/
def loadTmp (query_bases query_qual : List Char) (md : MdOp) (mo : Nat)
    (st : LocState) : Option LocState := do
  let ttq ← cppSubstr query_qual st.qs md.length
  let tqs ← cppSubstr query_bases st.qs md.length
  let tqq ← cppSubstr query_qual st.qs md.length
  some { st with
    tmp_op := md.op, tmp_length := md.length, tmp_target_seq := md.seq,
    tmp_target_qual := ttq, tmp_query_seq := tqs, tmp_query_qual := tqq,
    temp_md_mo := (mo : Int) }

/-- Inner `while` loop of the `M` case (MutationParser.h lines 392-468),
written with explicit fuel; each iteration either advances `mo` or zeroes
`remaining_co_length`, so `md_data.length + 2` fuel always suffices. -/
def mdConsume (query_bases query_qual : List Char) (md_data : List MdOp) :
    Nat → LocState → Except String LocState
  | 0, st => .ok st
  | fuel + 1, st =>
    match md_data.get? st.mo with
    | none => .ok st
    | some md =>
      if (md.op = MD_MATCH ∨ md.op = MD_MISMATCH) ∧
          st.remaining_co_length > 0 then
        match (if (st.mo : Int) ≠ st.temp_md_mo
               then loadTmp query_bases query_qual md st.mo st
               else some st) with
        | none => .error "Error: substring index out of range."
        | some st1 =>
          let adv : Bool := ¬ (st1.tmp_length > st1.remaining_co_length)
          let overlap : Int :=
            if st1.tmp_length > st1.remaining_co_length
            then st1.remaining_co_length else st1.tmp_length
          let st2 := if adv then { st1 with mo := st1.mo + 1 } else st1
          if st2.tmp_op = MD_MATCH then
            match cppSubstr query_bases st2.qs overlap,
                  cppSubstr query_qual st2.qs overlap with
            | some sv, some qv =>
              mdConsume query_bases query_qual md_data fuel
                { st2 with
                  tmp_length := st2.tmp_length - overlap,
                  s := sv, q := qv,
                  target_seq := st2.target_seq ++ sv,
                  target_qual := st2.target_qual ++ qv,
                  aligned_seq := st2.aligned_seq ++ sv,
                  aligned_qual := st2.aligned_qual ++ qv,
                  ts := st2.ts + overlap, qs := st2.qs + overlap,
                  remaining_co_length := st2.remaining_co_length - overlap }
            | _, _ => .error "Error: substring index out of range."
          else
            -- MD_MISMATCH: split the tmp buffers at `overlap`
            let ovn := overlap.toNat
            let tso := st2.tmp_target_seq.take ovn
            let tsr := st2.tmp_target_seq.drop ovn
            let tqo := st2.tmp_target_qual.take ovn
            let tqr := st2.tmp_target_qual.drop ovn
            let qso := st2.tmp_query_seq.take ovn
            let qsr := st2.tmp_query_seq.drop ovn
            let qqo := st2.tmp_query_qual.take ovn
            let qqr := st2.tmp_query_qual.drop ovn
            mdConsume query_bases query_qual md_data fuel
              { st2 with
                tmp_target_seq := tsr, tmp_target_qual := tqr,
                tmp_query_seq := qsr, tmp_query_qual := qqr,
                tmp_length := (tsr.length : Int),
                target_seq := st2.target_seq ++ tso,
                target_qual := st2.target_qual ++ tqo,
                aligned_seq := st2.aligned_seq ++ qso,
                aligned_qual := st2.aligned_qual ++ qqo,
                mutations := st2.mutations ++
                  [Mutation.mk (st2.ts - 1) (st2.ts + overlap) qso qqo "" false],
                ts := st2.ts + overlap, qs := st2.qs + overlap,
                remaining_co_length := st2.remaining_co_length - overlap }
      else .ok st

/-- One iteration of the `locateMutations` loop over a CIGAR operator
(MutationParser.h lines 366-609).  Unchecked out-of-range accesses (e.g.
`md_data[mo]` with `mo` past the end, undefined behaviour in C++) are
modelled as errors. -/
def locateStep (query_bases query_qual : List Char) (md_data : List MdOp)
    (st : LocState) (c : CigarOp) : Except String LocState :=
  if c.op = 'M' then
    match md_data.get? st.mo with
    | none => .error "Error: out-of-range MD access."
    | some md =>
      if ¬ (md.op = MD_MATCH ∨ md.op = MD_MISMATCH) then
        .error "Error: MD tag does not match CIGAR string at alignment match operator ('M')."
      else
        match (if ¬ st.in_match
               then (loadTmp query_bases query_qual md st.mo
                      { st with in_match := true, remaining_co_length := 0 })
               else some st) with
        | none => .error "Error: substring index out of range."
        | some st1 =>
          let st2 := { st1 with
            remaining_co_length := st1.remaining_co_length + (c.length : Int) }
          match mdConsume query_bases query_qual md_data
                  (md_data.length + 2) st2 with
          | .error e => .error e
          | .ok st3 =>
            .ok (if st3.remaining_co_length = 0 ∧ st3.tmp_length = 0
                 then { st3 with in_match := false } else st3)
  else if c.op = 'I' then
    match cppSubstr query_bases st.qs (c.length : Int),
          cppSubstr query_qual st.qs (c.length : Int) with
    | some sv, some qv =>
      .ok { st with
        mutations := st.mutations ++
          [Mutation.mk (st.ts - 1) st.ts sv qv "" false],
        qs := st.qs + (c.length : Int) }
    | _, _ => .error "Error: substring index out of range."
  else if c.op = 'D' then
    match md_data.get? st.mo with
    | none => .error "Error: out-of-range MD access."
    | some md =>
      if ¬ (md.op = MD_DELETION ∧ md.length = (c.length : Int)) then
        .error "Error: MD tag does not match CIGAR string at deletion operator ('D')."
      else
        .ok { st with
          mutations := st.mutations ++
            [Mutation.mk (st.ts - 1) (st.ts + (c.length : Int)) [] [] "" false],
          target_seq := st.target_seq ++ md.seq,
          target_qual := st.target_qual ++ List.replicate md.length.toNat '!',
          s := List.replicate md.length.toNat '-',
          aligned_seq := st.aligned_seq ++ List.replicate md.length.toNat '-',
          aligned_qual := st.aligned_qual ++ List.replicate md.length.toNat '!',
          ts := st.ts + (c.length : Int),
          mo := st.mo + 1 }
  else if c.op = 'N' then
    match md_data.get? st.mo with
    | none => .error "Error: out-of-range MD access."
    | some md =>
      .ok { st with
        s := List.replicate c.length '~',
        target_seq := st.target_seq ++ List.replicate c.length '~',
        target_qual := st.target_qual ++ List.replicate md.length.toNat '!',
        aligned_seq := st.aligned_seq ++ List.replicate c.length '~',
        aligned_qual := st.aligned_qual ++ List.replicate md.length.toNat '!',
        ts := st.ts + 1 }
  else if c.op = 'S' then
    .ok { st with qs := st.qs + (c.length : Int) }
  else if c.op = 'H' then
    .ok st
  else if c.op = 'P' then
    .ok { st with
      s := List.replicate c.length '-',
      target_seq := st.target_seq ++ List.replicate c.length '-',
      target_qual := st.target_qual ++ st.q,
      aligned_seq := st.aligned_seq ++ List.replicate c.length '-',
      aligned_qual := st.aligned_qual ++ st.q,
      ts := st.ts + (c.length : Int) }
  else if c.op = '=' then
    match md_data.get? st.mo with
    | none => .error "Error: out-of-range MD access."
    | some md =>
      if ¬ (md.op = MD_MATCH ∧ md.length = (c.length : Int)) then
        .error "Error: MD tag does not match CIGAR string at explicit match operator ('=')."
      else
        match cppSubstr query_bases st.qs (c.length : Int),
              cppSubstr query_qual st.qs (c.length : Int) with
        | some sv, some qv =>
          .ok { st with
            s := sv, q := qv,
            target_seq := st.target_seq ++ sv,
            target_qual := st.target_qual ++ qv,
            aligned_seq := st.aligned_seq ++ sv,
            aligned_qual := st.aligned_qual ++ qv,
            mo := st.mo + 1 }
        | _, _ => .error "Error: substring index out of range."
  else if c.op = 'X' then
    match md_data.get? st.mo with
    | none => .error "Error: out-of-range MD access."
    | some md =>
      if ¬ (md.op = MD_MISMATCH ∧ md.length = (c.length : Int)) then
        .error "Error: MD tag does not match CIGAR string at explicit mismatch operator ('X')."
      else
        match cppSubstr query_bases st.qs (c.length : Int),
              cppSubstr query_qual st.qs (c.length : Int) with
        | some sv, some qv =>
          .ok { st with
            mutations := st.mutations ++
              [Mutation.mk (st.ts - 1) (st.ts + (c.length : Int)) md.seq qv "" false],
            target_seq := st.target_seq ++ md.seq,
            target_qual := st.target_qual ++ qv,
            aligned_seq := st.aligned_seq ++ sv,
            aligned_qual := st.aligned_qual ++ qv,
            qs := st.qs + (c.length : Int),
            ts := st.ts + (c.length : Int),
            mo := st.mo + 1 }
        | _, _ => .error "Error: substring index out of range."
  else
    .error "Error: Malformed CIGAR string."

/-- `locateMutations` (MutationParser.h lines 309-627): fold of
`locateStep` over the CIGAR operators from the initial state. -/
def locateMutations (pos : Int) (query_bases query_qual : List Char)
    (cigar_data : List CigarOp) (md_data : List MdOp) :
    Except String LocState :=
  cigar_data.foldlM (locateStep query_bases query_qual md_data)
    (LocState.init pos)

theorem calcRightTargetPos_shift (a c : Int) (l : List CigarOp) :
    l.foldl
      (fun acc x =>
        if x.op = 'M' ∨ x.op = 'D' ∨ x.op = 'N' ∨ x.op = 'P' ∨
           x.op = '=' ∨ x.op = 'X'
        then acc + (x.length : Int) else acc) (a + c) =
    l.foldl
      (fun acc x =>
        if x.op = 'M' ∨ x.op = 'D' ∨ x.op = 'N' ∨ x.op = 'P' ∨
           x.op = '=' ∨ x.op = 'X'
        then acc + (x.length : Int) else acc) a + c := by
  induction l generalizing a with
  | nil => rfl
  | cons x xs ih =>
    simp only [List.foldl_cons]
    by_cases hx : x.op = 'M' ∨ x.op = 'D' ∨ x.op = 'N' ∨ x.op = 'P' ∨
       x.op = '=' ∨ x.op = 'X'
    · rw [if_pos hx, if_pos hx, add_right_comm a c (x.length : Int), ih]
    · rw [if_neg hx, if_neg hx, ih]

/-- **C9.** Processing a skip operator `N` of length `L` advances the
reference-position index `ts` by exactly 1 — independently of `L` —
while `calcRightTargetPos` adds the full length `L` of an `N` operator
to the right-most reference position: replacing an `N` of length 0 by an
`N` of length `L` anywhere in the CIGAR list shifts the result by `L`. -/
theorem locateStep_skip_advances_one (query_bases query_qual : List Char)
    (md_data : List MdOp) (st : LocState) (L : Nat)
    (hmo : st.mo < md_data.length) :
    Except.map LocState.ts
        (locateStep query_bases query_qual md_data st (CigarOp.mk 'N' L)) =
      Except.ok (st.ts + 1) ∧
    (∀ (pos : Int) (ops1 ops2 : List CigarOp),
      calcRightTargetPos pos (ops1 ++ CigarOp.mk 'N' L :: ops2) =
        calcRightTargetPos pos (ops1 ++ CigarOp.mk 'N' 0 :: ops2) + L) := by
  constructor
  · unfold locateStep
    have hN : (CigarOp.mk 'N' L).op = 'N' := rfl
    rw [if_neg (by simp [CigarOp.op]), if_neg (by simp [CigarOp.op]),
      if_neg (by simp [CigarOp.op]), if_pos hN]
    match hget : md_data.get? st.mo with
    | none =>
      exact absurd (List.get?_eq_none.mp hget) (by omega)
    | some md => rfl
  · intro pos ops1 ops2
    unfold calcRightTargetPos
    rw [List.foldl_append, List.foldl_append, List.foldl_cons, List.foldl_cons]
    simp only [show (CigarOp.mk 'N' L).op = 'N' from rfl,
      show (CigarOp.mk 'N' L).length = L from rfl,
      show (CigarOp.mk 'N' 0).length = 0 from rfl]
    rw [if_pos (by tauto), if_pos (by tauto)]
    push_cast
    rw [add_zero, calcRightTargetPos_shift]
    ring

/-- Witness for C9: a skip of length 100 at the initial state over a
one-op MD list advances `ts` from 0 to 1, while `calcRightTargetPos`
counts all 100 positions. -/
theorem locateStep_skip_advances_one_witness :
    (0 : Nat) < 1 ∧
    Except.map LocState.ts
        (locateStep [] [] [MdOp.mk MD_MATCH 5 []] (LocState.init 0)
          (CigarOp.mk 'N' 100)) = Except.ok 1 ∧
    calcRightTargetPos 0 [CigarOp.mk 'M' 3, CigarOp.mk 'N' 100] =
      calcRightTargetPos 0 [CigarOp.mk 'M' 3, CigarOp.mk 'N' 0] + 100 := by
  have h := locateStep_skip_advances_one [] [] [MdOp.mk MD_MATCH 5 []]
    (LocState.init 0) 100 (by simp [LocState.init])
  exact ⟨by norm_num, h.1, h.2 0 [CigarOp.mk 'M' 3] []⟩

/-! ## Claim C5: `collapseMutations` (MutationProcessing.h lines 268-389) -/

/-- State of the first (merging) loop of `collapseMutations`:
`collapsed` accumulates merged mutations, `unmerged` holds `N_match`
mutations kept out of merging. -/
structure CollapseState where
  collapsed : List Mutation
  unmerged : List Mutation
deriving Repr, DecidableEq

/-- One iteration of the merging loop of `collapseMutations`
(MutationProcessing.h lines 277-312).  The reference slice between the
previous mutation and `m` is `substr(back.right − left_target_pos,
m.left − back.right + 1)`; an uncaught `substr` throw becomes an error. -/
def collapseStep (max_internal_match : Int)
    (local_target_seq local_target_qual : List Char) (left_target_pos : Int)
    (st : CollapseState) (m : Mutation) : Except String CollapseState :=
  if m.tag = "N_match" then
    .ok { st with unmerged := st.unmerged ++ [m] }
  else
    match st.collapsed.getLast? with
    | none => .ok { st with collapsed := st.collapsed ++ [m] }
    | some back =>
      if m.left - (back.right - 1) ≤ max_internal_match then
        match cppSubstr local_target_seq (back.right - left_target_pos)
                (m.left - back.right + 1) with
        | none => .error "Error: substring index out of range."
        | some seq_sub =>
          if '_' ∈ seq_sub then
            -- don't collapse across the gap between R1 and R2
            .ok { st with collapsed := st.collapsed ++ [m] }
          else
            match cppSubstr local_target_qual (back.right - left_target_pos)
                    (m.left - back.right + 1) with
            | none => .error "Error: substring index out of range."
            | some qual_sub =>
              .ok { st with collapsed := st.collapsed.dropLast ++
                [Mutation.mk back.left m.right
                  (back.seq ++ seq_sub ++ m.seq)
                  (back.qual ++ qual_sub ++ m.qual)
                  "" (back.ambig || m.ambig)] }
      else
        .ok { st with collapsed := st.collapsed ++ [m] }

/-- Left-end strip loop of `collapseMutations` (MutationProcessing.h
lines 322ff.): returns the number of leading bases stripped, or an error
when the source's uncaught-at-this-level `substr` throw fires (the outer
`catch` then breaks out of the whole strip pass). -/
def stripLeftGo (ts : List Char) (ltp : Int) (mu : Mutation) (i : Nat) :
    Except Unit Nat :=
  if hi : i < mu.seq.length then
    -- q = qual.substr(i, 1) throws when i > qual.size()
    if mu.qual.length < i then .error ()
    else if mu.left + 1 + (i : Int) ≥ mu.right then .ok i
    else if mu.left + 1 + (i : Int) - ltp < 0 then .ok i
    else
      match cppSubstr ts (mu.left + 1 + (i : Int) - ltp) 1 with
      | none => .error ()
      | some r =>
        if [mu.seq.getD i 'A'] = r then
          -- new_qual = new_qual.substr(1) throws when it is empty
          if mu.qual.length ≤ i then .error ()
          else stripLeftGo ts ltp mu (i + 1)
        else .ok i
  else .ok i
termination_by mu.seq.length - i

/-- Right-end strip loop of `collapseMutations` (MutationProcessing.h
lines 351ff.): `j` counts bases stripped from the right end so far. -/
def stripRightGo (ts : List Char) (ltp : Int) (mu : Mutation) (j : Nat) :
    Except Unit Nat :=
  if hj : j < mu.seq.length then
    -- q = qual.substr(i, 1) with i = seq.length - 1 - j
    if mu.qual.length < mu.seq.length - 1 - j then .error ()
    else if mu.right - ((j : Int) + 1) ≤ mu.left then .ok j
    else if mu.right - ((j : Int) + 1) - ltp < 0 then .ok j
    else
      match cppSubstr ts (mu.right - ((j : Int) + 1) - ltp) 1 with
      | none => .error ()
      | some r =>
        if [mu.seq.getD (mu.seq.length - 1 - j) 'A'] = r then
          stripRightGo ts ltp mu (j + 1)
        else .ok j
  else .ok j
termination_by mu.seq.length - j

/-- The strip pass of `collapseMutations` (MutationProcessing.h lines
317-379): strip matching bases from each mutation's ends; an
out-of-range throw is caught with `break`, leaving the remaining
mutations (and, after a left strip, the right end) untouched. -/
def stripPhase (ts : List Char) (ltp : Int) : List Mutation → List Mutation
  | [] => []
  | mu :: rest =>
    match stripLeftGo ts ltp mu 0 with
    | .error _ => mu :: rest
    | .ok k =>
      let mu1 : Mutation :=
        { mu with left := mu.left + (k : Int),
                  seq := mu.seq.drop k, qual := mu.qual.drop k }
      match stripRightGo ts ltp mu1 0 with
      | .error _ => mu1 :: rest
      | .ok j =>
        { mu1 with right := mu1.right - (j : Int),
                   seq := mu1.seq.take (mu1.seq.length - j),
                   qual := mu1.qual.take (mu1.seq.length - j) } ::
          stripPhase ts ltp rest

/-- `mutation::collapseMutations` (MutationProcessing.h lines 268-389):
merge phase, strip phase, re-insertion of the `N_match` mutations, and a
final sort by `operator<` (`std::sort`; modelled by a stable merge
sort — one valid refinement of the unspecified `std::sort` order for
equivalent elements). -/
def collapseMutations (mutations : List Mutation) (max_internal_match : Int)
    (local_target_seq local_target_qual : List Char) (left_target_pos : Int) :
    Except String (List Mutation) := do
  if mutations.isEmpty then
    return []
  let st ← mutations.foldlM
    (collapseStep max_internal_match local_target_seq local_target_qual
      left_target_pos)
    (CollapseState.mk [] [])
  let stripped := stripPhase local_target_seq left_target_pos st.collapsed
  return (stripped ++ st.unmerged).mergeSort
    (fun a b => ! Mutation.ltOp b a)

/-- **C5.** One step of the merging walk, with `back` the mutation most
recently placed in the output: an `N_match` mutation is carried
separately; a mutation farther than `K = max_internal_match` from
`back.right − 1` is appended unmerged; a near mutation whose gap
reference slice contains the `'_'` sentinel is appended unmerged; and
otherwise the pair is merged into a mutation spanning `back.left` to
`m.right` whose `seq`/`qual` concatenate `back`'s, the gap slice's and
`m`'s, and whose ambiguity flag is the OR of the participants'. -/
theorem collapseStep_merges_iff (K : Int) (ts tq : List Char) (ltp : Int)
    (st : CollapseState) (m back : Mutation)
    (hback : st.collapsed.getLast? = some back) :
    (m.tag = "N_match" →
      collapseStep K ts tq ltp st m =
        .ok { st with unmerged := st.unmerged ++ [m] }) ∧
    (m.tag ≠ "N_match" → m.left - (back.right - 1) > K →
      collapseStep K ts tq ltp st m =
        .ok { st with collapsed := st.collapsed ++ [m] }) ∧
    (∀ seq_sub : List Char, m.tag ≠ "N_match" →
      m.left - (back.right - 1) ≤ K →
      cppSubstr ts (back.right - ltp) (m.left - back.right + 1) = some seq_sub →
      '_' ∈ seq_sub →
      collapseStep K ts tq ltp st m =
        .ok { st with collapsed := st.collapsed ++ [m] }) ∧
    (∀ seq_sub qual_sub : List Char, m.tag ≠ "N_match" →
      m.left - (back.right - 1) ≤ K →
      cppSubstr ts (back.right - ltp) (m.left - back.right + 1) = some seq_sub →
      cppSubstr tq (back.right - ltp) (m.left - back.right + 1) = some qual_sub →
      '_' ∉ seq_sub →
      collapseStep K ts tq ltp st m =
        .ok { st with collapsed := st.collapsed.dropLast ++
          [Mutation.mk back.left m.right
            (back.seq ++ seq_sub ++ m.seq)
            (back.qual ++ qual_sub ++ m.qual)
            "" (back.ambig || m.ambig)] }) := by
  refine ⟨?_, ?_, ?_, ?_⟩
  · intro hN
    unfold collapseStep
    rw [if_pos hN]
  · intro hN hgap
    unfold collapseStep
    rw [if_neg hN, hback]
    simp only
    rw [if_neg (by omega)]
  · intro seq_sub hN hgap hsub hmem
    unfold collapseStep
    rw [if_neg hN, hback]
    simp only
    rw [if_pos hgap, hsub]
    simp only
    rw [if_pos hmem]
  · intro seq_sub qual_sub hN hgap hsub hqsub hmem
    unfold collapseStep
    rw [if_neg hN, hback]
    simp only
    rw [if_pos hgap, hsub]
    simp only
    rw [if_neg hmem, hqsub]

/-- Witness for C5: target `ACGTACGT` at position 0, previous mutation
`(0, 2, "T", "H")` in the output, next mutation `(3, 5, "A", "I")`,
`K = 2`: the gap slice is `"GT"` (positions 2-3) and the merge yields
`(0, 5, "TGTA", "H#$I")`-style concatenation with `ambig` OR. -/
theorem collapseStep_merges_iff_witness :
    ((CollapseState.mk [Mutation.mk 0 2 ['T'] ['H'] "" true] []).collapsed.getLast?
       = some (Mutation.mk 0 2 ['T'] ['H'] "" true)) ∧
    collapseStep 2 "ACGTACGT".toList "IIIIIIII".toList 0
        (CollapseState.mk [Mutation.mk 0 2 ['T'] ['H'] "" true] [])
        (Mutation.mk 3 5 ['A'] ['E'] "" false) =
      .ok (CollapseState.mk
        [Mutation.mk 0 5 (['T'] ++ ['G', 'T'] ++ ['A'])
          (['H'] ++ ['I', 'I'] ++ ['E']) "" true] []) := by
  refine ⟨rfl, ?_⟩
  have h := collapseStep_merges_iff 2 "ACGTACGT".toList "IIIIIIII".toList 0
    (CollapseState.mk [Mutation.mk 0 2 ['T'] ['H'] "" true] [])
    (Mutation.mk 3 5 ['A'] ['E'] "" false)
    (Mutation.mk 0 2 ['T'] ['H'] "" true) rfl
  have := h.2.2.2 ['G', 'T'] ['I', 'I'] (by decide) (by decide)
    (by decide) (by decide) (by decide)
  simpa using this

/-! ## Claims C1 and C3: `filterQscoresCountDepths`
(MutationProcessing.h lines 422-703) -/

/-- `vector.at(p) = v` guarded by `try { } catch (std::out_of_range) { }`:
out-of-range (including negative) indices are skipped. -/
def setIntAt (l : List Bool) (p : Int) (v : Bool) : List Bool :=
  if 0 ≤ p ∧ p < (l.length : Int) then l.set p.toNat v else l

/-- A `for (int n = lo; n < lo + count; ++n) { try { l.at(n) = v; } ... }`
loop. -/
def loopSet (v : Bool) : Int → Nat → List Bool → List Bool
  | _, 0, l => l
  | lo, n + 1, l => loopSet v (lo + 1) n (setIntAt l lo v)

/-- `vector<int>.at(p) := some v` with catch-and-skip, for the mutation
index arrays (`-1` entries are modelled as `none`). -/
def setIdxAt (l : List (Option Nat)) (p : Int) (v : Nat) : List (Option Nat) :=
  if 0 ≤ p ∧ p < (l.length : Int) then l.set p.toNat (some v) else l

/-- Guarded read of an index array (`.at` with catch-and-skip → `none`). -/
def getIdxAt (l : List (Option Nat)) (p : Int) : Option Nat :=
  if 0 ≤ p ∧ p < (l.length : Int) then l.getD p.toNat none else none

/-- Guarded read of a quality character (`qual.at(n)` with
catch-and-skip). -/
def qualAt (qual : List Char) (p : Int) : Option Char :=
  if 0 ≤ p ∧ p < (qual.length : Int) then some (qual.getD p.toNat 'A') else none

/-- `qual.at(p) - 33 < min_qual` with an out-of-range read giving `false`
(the enclosing `try` skips the check). -/
def badAt (qual : List Char) (min_qual : Int) (p : Int) : Bool :=
  match qualAt qual p with
  | some c => decide (charVal c - 33 < min_qual)
  | none => false

/-- Construction of `left_mut_indices`, `right_mut_indices` and
`in_mutation` (MutationProcessing.h lines 448-466): a fold over the
mutations with their vector indices; later mutations overwrite earlier
entries, exactly as the source loop does. -/
def buildIdxGo (left : Int) :
    Nat → List Mutation →
    List (Option Nat) × List (Option Nat) × List Bool →
    List (Option Nat) × List (Option Nat) × List Bool
  | _, [], acc => acc
  | i, m :: rest, (lidx, ridx, inm) =>
    buildIdxGo left (i + 1) rest
      (setIdxAt lidx (m.left - left) i,
       setIdxAt ridx (m.right - left) i,
       loopSet true (m.left + 1 - left) (m.right - m.left - 1).toNat inm)

def buildIndexArrays (mutations : List Mutation) (left : Int) (len : Nat) :
    List (Option Nat) × List (Option Nat) × List Bool :=
  buildIdxGo left 0 mutations
    (List.replicate len none, List.replicate len none, List.replicate len false)

/-- The inputs and precomputed index arrays shared by both passes of
`filterQscoresCountDepths`. -/
structure FilterCtx where
  mutations : List Mutation
  qual : List Char
  min_qual : Int
  left : Int
  mutation_type : String
  variant_mode : Bool
  lidx : List (Option Nat)
  ridx : List (Option Nat)
deriving Repr

/-- Pass A left-neighbour check at non-mutation position `i`
(MutationProcessing.h lines 484-510). -/
def badLeftNbrA (ctx : FilterCtx) (i : Nat) : Bool :=
  match getIdxAt ctx.ridx (i : Int) with
  | some k =>
    match ctx.mutations.get? k with
    | some nb =>
      if nb.seq ≠ [] then
        match nb.qual.getLast? with
        | some c => decide (charVal c - 33 < ctx.min_qual)
        | none => false
      else
        badAt ctx.qual ctx.min_qual (nb.left - ctx.left)
    | none => false
  | none => badAt ctx.qual ctx.min_qual ((i : Int) - 1)

/-- Pass A right-neighbour check at non-mutation position `i`
(MutationProcessing.h lines 511-538). -/
def badRightNbrA (ctx : FilterCtx) (i : Nat) : Bool :=
  match getIdxAt ctx.lidx (i : Int) with
  | some k =>
    match ctx.mutations.get? k with
    | some nb =>
      if nb.seq ≠ [] then
        match nb.qual.head? with
        | some c => decide (charVal c - 33 < ctx.min_qual)
        | none => false
      else
        badAt ctx.qual ctx.min_qual (nb.right - ctx.left)
    | none => false
  | none => badAt ctx.qual ctx.min_qual ((i : Int) + 1)

/-- Pass A badness of the basecall at non-mutation position `i`
(MutationProcessing.h lines 478-538): the position itself (low quality
or the `'~'` inter-mate sentinel) or either neighbour. -/
def badBasecallA (ctx : FilterCtx) (i : Nat) : Bool :=
  (match qualAt ctx.qual (i : Int) with
   | some c => decide (charVal c - 33 < ctx.min_qual) || decide (c = '~')
   | none => false) ||
  badLeftNbrA ctx i || badRightNbrA ctx i

/-- Pass A (MutationProcessing.h lines 472-542): positions inside a
mutation's interior are skipped; a bad basecall zeroes the effective
depth. -/
def passA (ctx : FilterCtx) (inm : List Bool) :
    Nat → List Bool → List Bool
  | _, [] => []
  | i, d :: rest =>
    (if inm.getD i false then d
     else if badBasecallA ctx i then false else d) ::
      passA ctx inm (i + 1) rest

/-- Mutation-type restriction of pass B (MutationProcessing.h lines
552-588). -/
def mutTypeBad (mutation_type : String) (tag : String) : Bool :=
  if mutation_type.length > 0 then
    if mutation_type = "mismatch" then
      ! decide (tag ∈ ["AT", "AG", "AC", "TA", "TG", "TC",
                       "GA", "GT", "GC", "CA", "CT", "CG",
                       "multinuc_mismatch"])
    else if mutation_type = "insert" then
      ! decide (tag ∈ ["-A", "-T", "-G", "-C", "-N"])
    else if mutation_type = "insert_multi" then
      decide (tag ≠ "multinuc_insertion")
    else if mutation_type = "gap" then
      ! decide (tag ∈ ["A-", "T-", "G-", "C-"])
    else if mutation_type = "gap_multi" then
      decide (tag ≠ "multinuc_deletion")
    else if mutation_type = "complex" then
      decide (tag ≠ "complex_deletion") && decide (tag ≠ "complex_insertion")
    else false
  else false

/-- Pass B left-neighbour check for mutation number `i` (the value `m`)
(MutationProcessing.h lines 599-625).  The whole check sits in one
`try`; an out-of-range `right_mut_indices.at(m.left + 1 - left)` or
`qual.at(n)` silently skips it. -/
def badLeftNbrB (ctx : FilterCtx) (i : Nat) (m : Mutation) : Bool :=
  if 0 ≤ m.left + 1 - ctx.left ∧
      m.left + 1 - ctx.left < (ctx.ridx.length : Int) then
    match getIdxAt ctx.ridx (m.left + 1 - ctx.left) with
    | some k =>
      if k ≠ i then
        match ctx.mutations.get? k with
        | some nb =>
          if nb.seq ≠ [] then
            match nb.qual.getLast? with
            | some c => decide (charVal c - 33 < ctx.min_qual)
            | none => false
          else
            badAt ctx.qual ctx.min_qual (nb.left - ctx.left)
        | none => false
      else
        badAt ctx.qual ctx.min_qual (m.left - ctx.left)
    | none => badAt ctx.qual ctx.min_qual (m.left - ctx.left)
  else false

/-- Pass B right-neighbour check for mutation number `i`
(MutationProcessing.h lines 626-652). -/
def badRightNbrB (ctx : FilterCtx) (i : Nat) (m : Mutation) : Bool :=
  if 0 ≤ m.right - 1 - ctx.left ∧
      m.right - 1 - ctx.left < (ctx.lidx.length : Int) then
    match getIdxAt ctx.lidx (m.right - 1 - ctx.left) with
    | some k =>
      if k ≠ i then
        match ctx.mutations.get? k with
        | some nb =>
          if nb.seq ≠ [] then
            match nb.qual.head? with
            | some c => decide (charVal c - 33 < ctx.min_qual)
            | none => false
          else
            badAt ctx.qual ctx.min_qual (nb.right - ctx.left)
        | none => false
      else
        badAt ctx.qual ctx.min_qual (m.right - ctx.left)
    | none => badAt ctx.qual ctx.min_qual (m.right - ctx.left)
  else false

/-- Pass B decision for mutation number `i` (MutationProcessing.h lines
548-652): type restriction, own basecall qualities, then both
neighbours. -/
def badMutation (ctx : FilterCtx) (i : Nat) (m : Mutation) : Bool :=
  mutTypeBad ctx.mutation_type m.tag ||
  m.qual.any (fun c => decide (charVal c - 33 < ctx.min_qual)) ||
  badLeftNbrB ctx i m || badRightNbrB ctx i m

/-- Depth update for a failing mutation (MutationProcessing.h lines
654-663): zero the effective depth over `left+1 … right−1`. -/
def applyExcludedDepth (left : Int) (m : Mutation) (eff : List Bool) :
    List Bool :=
  loopSet false (m.left + 1 - left) (m.right - m.left - 1).toNat eff

/-- Depth update for a passing mutation (MutationProcessing.h lines
664-688): in variant mode set `1` over `left+1 … right−1`; otherwise
zero `left+1 … right−2` and set the inferred adduct position
`right−1` to `1`. -/
def applyPassingDepth (variant_mode : Bool) (left : Int) (m : Mutation)
    (eff : List Bool) : List Bool :=
  if variant_mode then
    loopSet true (m.left + 1 - left) (m.right - m.left - 1).toNat eff
  else
    setIntAt (loopSet false (m.left + 1 - left) (m.right - m.left - 2).toNat eff)
      (m.right - 1 - left) true

/-- State of pass B: the effective depth and the two result lists. -/
structure FilterState where
  eff : List Bool
  included : List Mutation
  excluded : List Mutation
deriving Repr

/-- Pass B (MutationProcessing.h lines 548-689): process the mutations in
order; the badness decision of each mutation depends only on the inputs
and index arrays, never on the evolving depth vector. -/
def passBGo (ctx : FilterCtx) : Nat → List Mutation → FilterState → FilterState
  | _, [], st => st
  | i, m :: rest, st =>
    passBGo ctx (i + 1) rest
      (if badMutation ctx i m then
        { st with eff := applyExcludedDepth ctx.left m st.eff,
                  excluded := st.excluded ++ [m] }
      else
        { st with eff := applyPassingDepth ctx.variant_mode ctx.left m st.eff,
                  included := st.included ++ [m] })

/-- `local_effective_count` (MutationProcessing.h lines 691-697): a bit
set at `right − 1` of every included mutation. -/
def countFromIncluded (left : Int) (len : Nat) (included : List Mutation) :
    List Bool :=
  included.foldl (fun acc m => setIntAt acc (m.right - 1 - left) true)
    (List.replicate len false)

/-- `mutation::filterQscoresCountDepths` (MutationProcessing.h lines
422-703).  Returns `(effective_depth, local_effective_count,
included_mutations, excluded_mutations)`. -/
def filterQscoresCountDepths (mutations : List Mutation)
    (seq qual : List Char) (effective_depth_in : List Bool) (left : Int)
    (min_qual : Int) (mutation_type : String) (variant_mode : Bool) :
    List Bool × List Bool × List Mutation × List Mutation :=
  let len := seq.length
  let arrays := buildIndexArrays mutations left len
  let ctx : FilterCtx :=
    ⟨mutations, qual, min_qual, left, mutation_type, variant_mode,
     arrays.1, arrays.2.1⟩
  let effA := passA ctx arrays.2.2 0 effective_depth_in
  let stB := passBGo ctx 0 mutations ⟨effA, [], []⟩
  (stB.eff, countFromIncluded left len stB.included,
   stB.included, stB.excluded)

theorem getD_true_lt (l : List Bool) (j : Nat) (h : l.getD j false = true) :
    j < l.length := by
  by_contra hc
  rw [List.getD_eq_default _ _ (by omega)] at h
  exact Bool.false_ne_true h

theorem getD_set (l : List Bool) (n j : Nat) (v : Bool) :
    (l.set n v).getD j false = if n = j ∧ j < l.length then v else l.getD j false := by
  induction l generalizing n j with
  | nil => simp
  | cons a as ih =>
    cases n with
    | zero =>
      cases j with
      | zero => simp
      | succ jj => simp
    | succ nn =>
      cases j with
      | zero => simp
      | succ jj =>
        simp only [List.set_cons_succ, List.getD_cons_succ, ih nn jj,
          List.length_cons]
        by_cases h : nn = jj ∧ jj < as.length
        · rw [if_pos h, if_pos (by omega)]
        · rw [if_neg h, if_neg (by omega)]

theorem setIntAt_getD (l : List Bool) (p : Int) (v : Bool) (j : Nat) :
    (setIntAt l p v).getD j false =
      if (j : Int) = p ∧ j < l.length then v else l.getD j false := by
  unfold setIntAt
  by_cases h : 0 ≤ p ∧ p < (l.length : Int)
  · rw [if_pos h, getD_set]
    by_cases h2 : p.toNat = j ∧ j < l.length
    · rw [if_pos h2, if_pos (by omega)]
    · rw [if_neg h2, if_neg (by omega)]
  · rw [if_neg h, if_neg (by omega)]

theorem setIntAt_length (l : List Bool) (p : Int) (v : Bool) :
    (setIntAt l p v).length = l.length := by
  unfold setIntAt
  split
  · simp
  · rfl

theorem loopSet_length (v : Bool) (lo : Int) (n : Nat) (l : List Bool) :
    (loopSet v lo n l).length = l.length := by
  induction n generalizing lo l with
  | zero => rfl
  | succ k ih =>
    show (loopSet v (lo + 1) k (setIntAt l lo v)).length = _
    rw [ih, setIntAt_length]

theorem loopSet_getD (v : Bool) (lo : Int) (n : Nat) (l : List Bool) (j : Nat) :
    (loopSet v lo n l).getD j false =
      if lo ≤ (j : Int) ∧ (j : Int) < lo + n ∧ j < l.length then v
      else l.getD j false := by
  induction n generalizing lo l with
  | zero =>
    show l.getD j false = _
    rw [if_neg (by omega)]
  | succ k ih =>
    show (loopSet v (lo + 1) k (setIntAt l lo v)).getD j false = _
    rw [ih, setIntAt_length, setIntAt_getD]
    by_cases h1 : lo + 1 ≤ (j : Int) ∧ (j : Int) < lo + 1 + k ∧ j < l.length
    · rw [if_pos h1, if_pos (by push_cast; omega)]
    · rw [if_neg h1]
      by_cases h2 : (j : Int) = lo ∧ j < l.length
      · rw [if_pos h2, if_pos (by push_cast; omega)]
      · rw [if_neg h2, if_neg (by push_cast at h1 ⊢; omega)]

theorem applyExcludedDepth_length (left : Int) (m : Mutation) (eff : List Bool) :
    (applyExcludedDepth left m eff).length = eff.length := by
  unfold applyExcludedDepth
  rw [loopSet_length]

theorem applyPassingDepth_length (vm : Bool) (left : Int) (m : Mutation)
    (eff : List Bool) :
    (applyPassingDepth vm left m eff).length = eff.length := by
  unfold applyPassingDepth
  split
  · rw [loopSet_length]
  · rw [setIntAt_length, loopSet_length]

theorem applyExcludedDepth_getD (left : Int) (m : Mutation) (eff : List Bool)
    (hwf : m.left < m.right) (j : Nat) :
    (applyExcludedDepth left m eff).getD j false =
      if m.left + 1 - left ≤ (j : Int) ∧ (j : Int) ≤ m.right - 1 - left ∧
          j < eff.length
      then false else eff.getD j false := by
  unfold applyExcludedDepth
  rw [loopSet_getD]
  by_cases h : m.left + 1 - left ≤ (j : Int) ∧
      (j : Int) < m.left + 1 - left + ((m.right - m.left - 1).toNat : Int) ∧
      j < eff.length
  · rw [if_pos h, if_pos (by omega)]
  · rw [if_neg h, if_neg (by omega)]

theorem applyPassingDepth_false_getD (left : Int) (m : Mutation)
    (eff : List Bool) (hwf : m.left < m.right) (j : Nat) (hj : j < eff.length) :
    (applyPassingDepth false left m eff).getD j false =
      if (j : Int) = m.right - 1 - left then true
      else if m.left + 1 - left ≤ (j : Int) ∧ (j : Int) < m.right - 1 - left
      then false else eff.getD j false := by
  unfold applyPassingDepth
  rw [if_neg (by simp), setIntAt_getD, loopSet_length, loopSet_getD]
  by_cases hA : (j : Int) = m.right - 1 - left
  · rw [if_pos ⟨hA, hj⟩, if_pos hA]
  · rw [if_neg (fun hc => hA hc.1), if_neg hA]
    by_cases hB : m.left + 1 - left ≤ (j : Int) ∧ (j : Int) < m.right - 1 - left
    · rw [if_pos ⟨hB.1, by omega, hj⟩, if_pos hB]
    · rw [if_neg (by omega), if_neg hB]

theorem applyPassingDepth_true_getD (left : Int) (m : Mutation)
    (eff : List Bool) (hwf : m.left < m.right) (j : Nat) (hj : j < eff.length) :
    (applyPassingDepth true left m eff).getD j false =
      if m.left + 1 - left ≤ (j : Int) ∧ (j : Int) ≤ m.right - 1 - left
      then true else eff.getD j false := by
  unfold applyPassingDepth
  rw [if_pos rfl, loopSet_getD]
  by_cases h : m.left + 1 - left ≤ (j : Int) ∧
      (j : Int) < m.left + 1 - left + ((m.right - m.left - 1).toNat : Int) ∧
      j < eff.length
  · rw [if_pos h, if_pos (by omega)]
  · rw [if_neg h, if_neg (by omega)]

theorem countFromIncluded_fold_getD (left : Int) (included : List Mutation)
    (acc : List Bool) (j : Nat) :
    ((included.foldl (fun a m => setIntAt a (m.right - 1 - left) true) acc).getD
        j false = true) ↔
      (acc.getD j false = true ∨
       (j < acc.length ∧ ∃ m ∈ included, (j : Int) = m.right - 1 - left)) := by
  induction included generalizing acc with
  | nil => simp
  | cons m0 rest ih =>
    rw [List.foldl_cons, ih, setIntAt_length, setIntAt_getD]
    constructor
    · rintro (h | h)
      · by_cases hc : (j : Int) = m0.right - 1 - left ∧ j < acc.length
        · exact Or.inr ⟨hc.2, m0, List.mem_cons_self m0 rest, hc.1⟩
        · rw [if_neg hc] at h
          exact Or.inl h
      · exact Or.inr ⟨h.1, h.2.choose,
          List.mem_cons_of_mem _ h.2.choose_spec.1, h.2.choose_spec.2⟩
    · rintro (h | ⟨hlen, mm, hmm, hjm⟩)
      · left
        by_cases hc : (j : Int) = m0.right - 1 - left ∧ j < acc.length
        · rw [if_pos hc]
        · rw [if_neg hc]; exact h
      · rcases List.mem_cons.mp hmm with rfl | hmem
        · left
          rw [if_pos ⟨hjm, hlen⟩]
        · exact Or.inr ⟨hlen, mm, hmem, hjm⟩

theorem getD_replicate (v : Bool) (n j : Nat) :
    (List.replicate n v).getD j false = if j < n then v else false := by
  induction n generalizing j with
  | zero => simp
  | succ k ih =>
    cases j with
    | zero => simp [List.replicate_succ]
    | succ jj =>
      rw [List.replicate_succ, List.getD_cons_succ, ih]
      by_cases h : jj < k
      · rw [if_pos h, if_pos (by omega)]
      · rw [if_neg h, if_neg (by omega)]

theorem countFromIncluded_getD (left : Int) (len : Nat)
    (included : List Mutation) (j : Nat) :
    ((countFromIncluded left len included).getD j false = true) ↔
      (j < len ∧ ∃ m ∈ included, (j : Int) = m.right - 1 - left) := by
  unfold countFromIncluded
  rw [countFromIncluded_fold_getD, List.length_replicate, getD_replicate]
  simp

/-- Disjointness of the closed spans `[left, right]` of two mutations. -/
def disjSpan (a b : Mutation) : Prop := a.right < b.left ∨ b.right < a.left

instance disjSpan.dec (a b : Mutation) : Decidable (disjSpan a b) := by
  unfold disjSpan
  infer_instance

theorem passA_length (ctx : FilterCtx) (inm : List Bool) (l : List Bool) :
    ∀ i : Nat, (passA ctx inm i l).length = l.length := by
  induction l with
  | nil => intro i; rfl
  | cons d rest ih =>
    intro i
    show ((if inm.getD i false then d
           else if badBasecallA ctx i then false else d) ::
            passA ctx inm (i + 1) rest).length = _
    simp [ih]

theorem passA_le (ctx : FilterCtx) (inm : List Bool) (l : List Bool) :
    ∀ i j : Nat, (passA ctx inm i l).getD j false = true →
      l.getD j false = true := by
  induction l with
  | nil => intro i j h; exact h
  | cons d rest ih =>
    intro i j h
    cases j with
    | zero =>
      have h0 : (if inm.getD i false then d
          else if badBasecallA ctx i then false else d) = true := h
      rw [List.getD_cons_zero]
      split_ifs at h0 <;> simp_all
    | succ jj =>
      rw [List.getD_cons_succ]
      exact ih (i + 1) jj h

theorem passBGo_cons (ctx : FilterCtx) (i : Nat) (m : Mutation)
    (rest : List Mutation) (st : FilterState) :
    passBGo ctx i (m :: rest) st =
      passBGo ctx (i + 1) rest
        (if badMutation ctx i m then
          { st with eff := applyExcludedDepth ctx.left m st.eff,
                    excluded := st.excluded ++ [m] }
        else
          { st with eff := applyPassingDepth ctx.variant_mode ctx.left m st.eff,
                    included := st.included ++ [m] }) := rfl

theorem passBGo_eff_length (ctx : FilterCtx) (l : List Mutation) :
    ∀ (i : Nat) (st : FilterState),
      (passBGo ctx i l st).eff.length = st.eff.length := by
  induction l with
  | nil => intro i st; rfl
  | cons m rest ih =>
    intro i st
    rw [passBGo_cons, ih]
    by_cases hb : badMutation ctx i m
    · rw [if_pos hb]
      exact applyExcludedDepth_length _ _ _
    · rw [if_neg hb]
      exact applyPassingDepth_length _ _ _ _

theorem passBGo_included_sub (ctx : FilterCtx) (l : List Mutation) :
    ∀ (i : Nat) (st : FilterState) (m : Mutation),
      m ∈ (passBGo ctx i l st).included → m ∈ st.included ∨ m ∈ l := by
  induction l with
  | nil => intro i st m h; exact Or.inl h
  | cons m0 rest ih =>
    intro i st m h
    rw [passBGo_cons] at h
    rcases ih (i + 1) _ m h with h1 | h1
    · by_cases hb : badMutation ctx i m0
      · rw [if_pos hb] at h1
        exact Or.inl h1
      · rw [if_neg hb] at h1
        rcases List.mem_append.mp h1 with h2 | h2
        · exact Or.inl h2
        · exact Or.inr (List.mem_cons.mpr (Or.inl (List.mem_singleton.mp h2)))
    · exact Or.inr (List.mem_cons_of_mem _ h1)

theorem applyExcludedDepth_unchanged (left : Int) (m : Mutation)
    (eff : List Bool) (hwf : m.left < m.right) (j : Nat)
    (h : ¬ (min (m.left + 1) (m.right - 1) - left ≤ (j : Int) ∧
            (j : Int) ≤ m.right - 1 - left)) :
    (applyExcludedDepth left m eff).getD j false = eff.getD j false := by
  rw [applyExcludedDepth_getD _ _ _ hwf, if_neg (by omega)]

theorem applyPassingDepth_false_unchanged (left : Int) (m : Mutation)
    (eff : List Bool) (hwf : m.left < m.right) (j : Nat)
    (h : ¬ (min (m.left + 1) (m.right - 1) - left ≤ (j : Int) ∧
            (j : Int) ≤ m.right - 1 - left)) :
    (applyPassingDepth false left m eff).getD j false = eff.getD j false := by
  by_cases hj : j < eff.length
  · rw [applyPassingDepth_false_getD _ _ _ hwf j hj,
      if_neg (by omega), if_neg (by omega)]
  · rw [List.getD_eq_default _ _ (by rw [applyPassingDepth_length]; omega),
      List.getD_eq_default _ _ (by omega)]

/-- The adduct invariant of pass B in normal mode: every mutation placed
in `included` so far has its inferred adduct position `right − 1` marked
in the effective depth, and this survives the remaining mutations when
their closed spans are pairwise disjoint. -/
theorem passBGo_adduct (ctx : FilterCtx) (hvm : ctx.variant_mode = false) :
    ∀ (l : List Mutation) (i : Nat) (st : FilterState),
      (∀ m ∈ l, m.left < m.right) →
      l.Pairwise disjSpan →
      (∀ m ∈ st.included, m.left < m.right) →
      (∀ m ∈ st.included, ∀ m2 ∈ l, disjSpan m m2) →
      (∀ m ∈ st.included, ∀ j : Nat, (j : Int) = m.right - 1 - ctx.left →
          j < st.eff.length → st.eff.getD j false = true) →
      ∀ m ∈ (passBGo ctx i l st).included, ∀ j : Nat,
        (j : Int) = m.right - 1 - ctx.left →
        j < (passBGo ctx i l st).eff.length →
        (passBGo ctx i l st).eff.getD j false = true := by
  intro l
  induction l with
  | nil =>
    intro i st _ _ _ _ hadd
    exact hadd
  | cons m0 rest ih =>
    intro i st hwf hpw hwfi hdisj hadd
    have hwf0 : m0.left < m0.right := hwf m0 (List.mem_cons_self _ _)
    rw [passBGo_cons]
    apply ih (i + 1)
    · intro m hm
      exact hwf m (List.mem_cons_of_mem _ hm)
    · exact (List.pairwise_cons.mp hpw).2
    · by_cases hb : badMutation ctx i m0
      · rw [if_pos hb]
        exact hwfi
      · rw [if_neg hb]
        intro m hm
        rcases List.mem_append.mp hm with h | h
        · exact hwfi m h
        · rw [List.mem_singleton.mp h]
          exact hwf0
    · by_cases hb : badMutation ctx i m0
      · rw [if_pos hb]
        intro m hm m2 hm2
        exact hdisj m hm m2 (List.mem_cons_of_mem _ hm2)
      · rw [if_neg hb]
        intro m hm m2 hm2
        rcases List.mem_append.mp hm with h | h
        · exact hdisj m h m2 (List.mem_cons_of_mem _ hm2)
        · rw [List.mem_singleton.mp h]
          exact (List.pairwise_cons.mp hpw).1 m2 hm2
    · by_cases hb : badMutation ctx i m0
      · rw [if_pos hb]
        intro m hm j hj hjlen
        have hd := hdisj m hm m0 (List.mem_cons_self _ _)
        have hwfm := hwfi m hm
        unfold disjSpan at hd
        have hnw : ¬ (min (m0.left + 1) (m0.right - 1) - ctx.left ≤ (j : Int) ∧
            (j : Int) ≤ m0.right - 1 - ctx.left) := by omega
        show (applyExcludedDepth ctx.left m0 st.eff).getD j false = true
        rw [applyExcludedDepth_unchanged _ _ _ hwf0 j hnw]
        apply hadd m hm j hj
        have := applyExcludedDepth_length ctx.left m0 st.eff
        simp only [this] at hjlen
        exact hjlen
      · rw [if_neg hb]
        intro m hm j hj hjlen
        have hlen0 := applyPassingDepth_length ctx.variant_mode ctx.left m0 st.eff
        rcases List.mem_append.mp hm with h | h
        · have hd := hdisj m h m0 (List.mem_cons_self _ _)
          have hwfm := hwfi m h
          unfold disjSpan at hd
          have hnw : ¬ (min (m0.left + 1) (m0.right - 1) - ctx.left ≤ (j : Int) ∧
              (j : Int) ≤ m0.right - 1 - ctx.left) := by omega
          show (applyPassingDepth ctx.variant_mode ctx.left m0 st.eff).getD j false
              = true
          rw [hvm, applyPassingDepth_false_unchanged _ _ _ hwf0 j hnw]
          apply hadd m h j hj
          simp only [hlen0] at hjlen
          omega
        · rw [List.mem_singleton.mp h] at hj
          show (applyPassingDepth ctx.variant_mode ctx.left m0 st.eff).getD j false
              = true
          rw [hvm]
          have hjlen2 : j < st.eff.length := by
            simpa [applyPassingDepth_length] using hjlen
          rw [applyPassingDepth_false_getD _ _ _ hwf0 j hjlen2, if_pos hj]

/-- In normal mode, a `true` bit in the effective depth after pass B is
either a surviving `true` of the input or the adduct position of one of
the processed mutations. -/
theorem passBGo_true_source (ctx : FilterCtx) (hvm : ctx.variant_mode = false) :
    ∀ (l : List Mutation) (i : Nat) (st : FilterState),
      (∀ m ∈ l, m.left < m.right) →
      ∀ j : Nat, (passBGo ctx i l st).eff.getD j false = true →
        st.eff.getD j false = true ∨
        ∃ m ∈ l, (j : Int) = m.right - 1 - ctx.left := by
  intro l
  induction l with
  | nil =>
    intro i st _ j h
    exact Or.inl h
  | cons m0 rest ih =>
    intro i st hwf j h
    have hwf0 : m0.left < m0.right := hwf m0 (List.mem_cons_self _ _)
    rw [passBGo_cons] at h
    rcases ih (i + 1) _ (fun m hm => hwf m (List.mem_cons_of_mem _ hm)) j h
      with h1 | h1
    · by_cases hb : badMutation ctx i m0
      · rw [if_pos hb] at h1
        have h2 : (applyExcludedDepth ctx.left m0 st.eff).getD j false = true := h1
        rw [applyExcludedDepth_getD _ _ _ hwf0 j] at h2
        by_cases hc : m0.left + 1 - ctx.left ≤ (j : Int) ∧
            (j : Int) ≤ m0.right - 1 - ctx.left ∧ j < st.eff.length
        · rw [if_pos hc] at h2
          exact absurd h2 (by simp)
        · rw [if_neg hc] at h2
          exact Or.inl h2
      · rw [if_neg hb] at h1
        have h2 : (applyPassingDepth ctx.variant_mode ctx.left m0 st.eff).getD
            j false = true := h1
        rw [hvm] at h2
        by_cases hj : j < st.eff.length
        · rw [applyPassingDepth_false_getD _ _ _ hwf0 j hj] at h2
          by_cases hA : (j : Int) = m0.right - 1 - ctx.left
          · exact Or.inr ⟨m0, List.mem_cons_self _ _, hA⟩
          · rw [if_neg hA] at h2
            by_cases hB : m0.left + 1 - ctx.left ≤ (j : Int) ∧
                (j : Int) < m0.right - 1 - ctx.left
            · rw [if_pos hB] at h2
              exact absurd h2 (by simp)
            · rw [if_neg hB] at h2
              exact Or.inl h2
        · exfalso
          rw [List.getD_eq_default _ _
            (by rw [applyPassingDepth_length]; omega)] at h2
          exact Bool.false_ne_true h2
    · exact Or.inr ⟨h1.choose, List.mem_cons_of_mem _ h1.choose_spec.1,
        h1.choose_spec.2⟩

/-- **C1 (counterexample).** The elementwise invariant `count[i] ≤
depth[i]` fails for a read with overlapping mutations: with reference
slice `AAAAAAAA` at `left = 0`, all qualities `'I'`, input effective
depth and `mapped_depth` all ones, `min_qual = 0`, non-variant mode, and
the two overlapping (left-sorted) mutations `(0, 4, "T", "I")` and
`(1, 5, "G", "I")`, both pass the filter, the second zeroes the first's
adduct position 3, and the output has `count[3] = 1 > depth[3] = 0`
(while `mapped_depth[3] = 1`). -/
theorem filter_count_exceeds_depth :
    ((Mutation.mk 0 4 ['T'] ['I'] "" false).left ≤
       (Mutation.mk 1 5 ['G'] ['I'] "" false).left) ∧
    ((filterQscoresCountDepths
        [Mutation.mk 0 4 ['T'] ['I'] "" false,
         Mutation.mk 1 5 ['G'] ['I'] "" false]
        (List.replicate 8 'A') (List.replicate 8 'I') (List.replicate 8 true)
        0 0 "" false).2.1.getD 3 false = true) ∧
    ((filterQscoresCountDepths
        [Mutation.mk 0 4 ['T'] ['I'] "" false,
         Mutation.mk 1 5 ['G'] ['I'] "" false]
        (List.replicate 8 'A') (List.replicate 8 'I') (List.replicate 8 true)
        0 0 "" false).1.getD 3 false = false) ∧
    ((List.replicate 8 true).getD 3 false = true) := by
  refine ⟨by decide, ?_, ?_, by decide⟩ <;> decide

/-- **C1 (amended).** In non-variant mode, for a read whose mutations
have pairwise disjoint closed spans `[left, right]` (each with
`left < right`), whose input effective depth is elementwise below
`mapped_depth`, and whose mutations' adduct positions carry
`mapped_depth = 1`, the output of `filterQscoresCountDepths` satisfies
`count[i] ≤ depth[i]` and `depth[i] ≤ mapped_depth[i]` at every index
(`b₁ ≤ b₂` of bits stated as `b₁ = true → b₂ = true`).  The original
claim, without the disjointness restriction, is refuted by
the counterexample above; the filter itself never reads or writes
`mapped_depth`, so the second inequality additionally needs the stated
coverage hypotheses on the inputs. -/
theorem filter_invariants_nonvariant (mutations : List Mutation)
    (seq qual : List Char) (depth_in mapped : List Bool)
    (left min_qual : Int) (mutation_type : String)
    (hlen : depth_in.length = seq.length)
    (hwf : ∀ m ∈ mutations, m.left < m.right)
    (hdisj : mutations.Pairwise disjSpan)
    (hin : ∀ i : Nat, depth_in.getD i false = true → mapped.getD i false = true)
    (hmap : ∀ m ∈ mutations, ∀ j : Nat, (j : Int) = m.right - 1 - left →
        j < depth_in.length → mapped.getD j false = true) :
    (∀ i : Nat,
      (filterQscoresCountDepths mutations seq qual depth_in left min_qual
        mutation_type false).2.1.getD i false = true →
      (filterQscoresCountDepths mutations seq qual depth_in left min_qual
        mutation_type false).1.getD i false = true) ∧
    (∀ i : Nat,
      (filterQscoresCountDepths mutations seq qual depth_in left min_qual
        mutation_type false).1.getD i false = true →
      mapped.getD i false = true) := by
  unfold filterQscoresCountDepths
  simp only
  set arrays := buildIndexArrays mutations left seq.length with harrays
  set ctx : FilterCtx :=
    ⟨mutations, qual, min_qual, left, mutation_type, false,
     arrays.1, arrays.2.1⟩ with hctx
  have hvm : ctx.variant_mode = false := rfl
  set effA := passA ctx arrays.2.2 0 depth_in with heffA
  have heffAlen : effA.length = depth_in.length := passA_length ctx arrays.2.2 depth_in 0
  set stB := passBGo ctx 0 mutations ⟨effA, [], []⟩ with hstB
  have hefflen : stB.eff.length = depth_in.length := by
    rw [hstB, passBGo_eff_length]
    exact heffAlen
  constructor
  · intro i hcount
    rw [countFromIncluded_getD] at hcount
    obtain ⟨hilen, m, hmem, hadj⟩ := hcount
    rcases passBGo_included_sub ctx mutations 0 ⟨effA, [], []⟩ m hmem with h0 | h0
    · exact absurd h0 (List.not_mem_nil m)
    · have := passBGo_adduct ctx hvm mutations 0 ⟨effA, [], []⟩
        hwf hdisj
        (by intro m hm; exact absurd hm (List.not_mem_nil m))
        (by intro m hm; exact absurd hm (List.not_mem_nil m))
        (by intro m hm; exact absurd hm (List.not_mem_nil m))
        m hmem i hadj
      apply this
      rw [← hstB] at *
      omega
  · intro i hdepth
    have hilen : i < stB.eff.length := getD_true_lt _ _ hdepth
    rcases passBGo_true_source ctx hvm mutations 0 ⟨effA, [], []⟩ hwf i hdepth
      with h0 | h0
    · have : depth_in.getD i false = true := passA_le ctx arrays.2.2 depth_in 0 i h0
      exact hin i this
    · obtain ⟨m, hmem, hadj⟩ := h0
      exact hmap m hmem i hadj (by omega)

/-- Witness for C1 (amended): two disjoint passing mutations
`(0, 2, "T", "I")` and `(4, 6, "G", "I")` over `AAAAAAAA`; position 5 is
the second mutation's adduct: `count[5] = depth[5] = 1`. -/
theorem filter_invariants_nonvariant_witness :
    ((filterQscoresCountDepths
        [Mutation.mk 0 2 ['T'] ['I'] "" false,
         Mutation.mk 4 6 ['G'] ['I'] "" false]
        (List.replicate 8 'A') (List.replicate 8 'I') (List.replicate 8 true)
        0 0 "" false).2.1.getD 5 false = true) ∧
    ((filterQscoresCountDepths
        [Mutation.mk 0 2 ['T'] ['I'] "" false,
         Mutation.mk 4 6 ['G'] ['I'] "" false]
        (List.replicate 8 'A') (List.replicate 8 'I') (List.replicate 8 true)
        0 0 "" false).1.getD 5 false = true) := by
  have h := filter_invariants_nonvariant
    [Mutation.mk 0 2 ['T'] ['I'] "" false,
     Mutation.mk 4 6 ['G'] ['I'] "" false]
    (List.replicate 8 'A') (List.replicate 8 'I') (List.replicate 8 true)
    (List.replicate 8 true) 0 0 ""
    (by decide)
    (by decide)
    (by decide)
    (by
      intro i hi
      have : i < 8 := by
        have := getD_true_lt _ _ hi
        simpa using this
      rw [getD_replicate, if_pos this])
    (by
      intro m hm j hj hjl
      have : j < 8 := by simpa using hjl
      rw [getD_replicate, if_pos this])
  refine ⟨by decide, ?_⟩
  exact h.1 5 (by decide)

/-- **C3.** The per-mutation depth update of the quality filter
(MutationProcessing.h lines 664-688): a passing mutation in normal mode
zeroes the effective depth over its interior `left+1 … right−2` and sets
`effective_depth[right−1] := 1`; in variant mode it sets the depth to 1
over all of `left+1 … right−1`; and `count[right−1] = 1` holds exactly
for the adduct positions of included mutations
(MutationProcessing.h lines 691-697). -/
theorem filter_passing_mutation_spec (left : Int) (m : Mutation)
    (eff : List Bool) (hwf : m.left < m.right) (j : Nat)
    (hj : j < eff.length) :
    ((applyPassingDepth false left m eff).getD j false =
      if (j : Int) = m.right - 1 - left then true
      else if m.left + 1 - left ≤ (j : Int) ∧ (j : Int) < m.right - 1 - left
      then false else eff.getD j false) ∧
    ((applyPassingDepth true left m eff).getD j false =
      if m.left + 1 - left ≤ (j : Int) ∧ (j : Int) ≤ m.right - 1 - left
      then true else eff.getD j false) ∧
    (∀ (len : Nat) (included : List Mutation),
      ((countFromIncluded left len included).getD j false = true ↔
       (j < len ∧ ∃ mm ∈ included, (j : Int) = mm.right - 1 - left))) := by
  refine ⟨applyPassingDepth_false_getD left m eff hwf j hj,
    applyPassingDepth_true_getD left m eff hwf j hj,
    fun len included => countFromIncluded_getD left len included j⟩

/-- Witness for C3 at the concrete mutation `(2, 5, "AB", "II")` over a
read of length 6: position 4 is the adduct (`depth[4] = 1` in normal
mode, `count[4] = 1`), position 3 is interior (zeroed in normal mode,
set in variant mode). -/
theorem filter_passing_mutation_spec_witness :
    ((applyPassingDepth false 0 (Mutation.mk 2 5 ['A', 'B'] ['I', 'I'] "" false)
        (List.replicate 6 true)).getD 4 false = true) ∧
    ((applyPassingDepth false 0 (Mutation.mk 2 5 ['A', 'B'] ['I', 'I'] "" false)
        (List.replicate 6 true)).getD 3 false = false) ∧
    ((applyPassingDepth true 0 (Mutation.mk 2 5 ['A', 'B'] ['I', 'I'] "" false)
        (List.replicate 6 true)).getD 3 false = true) ∧
    ((countFromIncluded 0 6
        [Mutation.mk 2 5 ['A', 'B'] ['I', 'I'] "" false]).getD 4 false = true) := by
  have h4 := filter_passing_mutation_spec 0
    (Mutation.mk 2 5 ['A', 'B'] ['I', 'I'] "" false)
    (List.replicate 6 true) (by decide) 4 (by decide)
  have h3 := filter_passing_mutation_spec 0
    (Mutation.mk 2 5 ['A', 'B'] ['I', 'I'] "" false)
    (List.replicate 6 true) (by decide) 3 (by decide)
  refine ⟨?_, ?_, ?_, ?_⟩
  · rw [h4.1]
    decide
  · rw [h3.1]
    decide
  · rw [h3.2.1]
    decide
  · rw [(h4.2.2 6 [Mutation.mk 2 5 ['A', 'B'] ['I', 'I'] "" false])]
    refine ⟨by decide, _, List.mem_singleton_self _, by decide⟩

/-! ## Claim C6: `mergeMatePairs` (MutationProcessing.h lines 767-1059) -/

/-- Strand and read-type enumerators (Read.h lines 18-89). -/
def FORWARD : Int := 0

def REVERSE : Int := 1

def UNSPECIFIED_STRAND : Int := 2

def PAIRED : Int := 6

def UNSPECIFIED_READ_TYPE : Int := 7

def INCLUDED : Int := 0

def NO_ASSOCIATED_PRIMER_PAIR : Int := -999

def READ1 : Int := 0

def READ2 : Int := 1

/-- `Read` (Read.h lines 92-142). -/
structure Read where
  left : Int
  right : Int
  strand : Int
  read_type : Int
  mapping_category : Int
  primer_pair : Int
  id : String
  seq : List Char
  qual : List Char
  mapped_depth : List Bool
  depth : List Bool
  count : List Bool
  mutations : List Mutation
deriving Repr, DecidableEq

/-- The fields of a `Read` consumed by mate-pair merging (`left`,
`right`, `strand`, `seq`, `qual`, `depth`, `mutations`); the output's
`id`, `mapping_category` and `primer_pair` come from read 1 alone and
the claim does not compare them. -/
structure MergeIn where
  left : Int
  right : Int
  strand : Int
  seq : List Char
  qual : List Char
  depth : List Bool
  mutations : List Mutation
deriving Repr, DecidableEq

def Read.toMergeIn (r : Read) : MergeIn :=
  ⟨r.left, r.right, r.strand, r.seq, r.qual, r.depth, r.mutations⟩

/-- `mergeMatePairsSimple` (Read.h lines 473-512), reduced to the merged
`mapped_depth` (the only part `mergeMatePairs` consumes): union span,
forward-read prefix and reverse-read suffix filled with ones.  The
source's unguarded `std::fill` past-the-end writes (UB) are clamped. -/
def simpleMappedDepth (a b : MergeIn) : List Bool :=
  let fw := if a.strand = REVERSE ∧ b.strand = FORWARD then b else a
  let rv := if a.strand = REVERSE ∧ b.strand = FORWARD then a else b
  let left := min fw.left rv.left
  let right := max rv.right fw.right
  let size := (right - left + 1).toNat
  let l1 := fw.right - fw.left + 1
  let l2 := rv.right - rv.left + 1
  loopSet true ((size : Int) - l2) l2.toNat
    (loopSet true 0 l1.toNat (List.replicate size false))

/-- Merged base at union-span offset `i` (MutationProcessing.h lines
796-807): start from `'_'`, overwrite with read 1's base if covered,
then with read 2's. -/
def mergedSeqChar (a b : MergeIn) (left : Int) (i : Nat) : Char :=
  match qualAt b.seq ((i : Int) - b.left + left) with
  | some c => c
  | none =>
    match qualAt a.seq ((i : Int) - a.left + left) with
    | some c => c
    | none => '_'

/-- Merged quality at union-span offset `i` (MutationProcessing.h lines
808-829): the larger of the two when both cover, else whichever covers,
else `'~'`. -/
def mergedQualChar (a b : MergeIn) (left : Int) (i : Nat) : Char :=
  let one := (qualAt a.qual ((i : Int) - a.left + left)).getD '~'
  let two := (qualAt b.qual ((i : Int) - b.left + left)).getD '~'
  if one ≠ '~' ∧ two ≠ '~' then
    (if charVal one ≥ charVal two then one else two)
  else if two = '~' ∧ one ≠ '~' then one
  else if one = '~' ∧ two ≠ '~' then two
  else '~'

/-- `MutationGroup` (Mutation.h lines 288-296); `left`/`right` are
uninitialised in the default-constructed group and only read once a
mutation has been added, so the model's defaults are never observed. -/
structure MutationGroup where
  left : Int
  right : Int
  r1_mutations : List Mutation
  r2_mutations : List Mutation
deriving Repr, DecidableEq

/-- Adding one mutation (from read 2 when `isR2`) to the group
accumulator (MutationProcessing.h lines 851-894). -/
def addToGroups (isR2 : Bool)
    (acc : List MutationGroup × MutationGroup) (m : Mutation) :
    List MutationGroup × MutationGroup :=
  let fresh : MutationGroup :=
    if isR2 then ⟨m.left, m.right, [], [m]⟩ else ⟨m.left, m.right, [m], []⟩
  if acc.2.r1_mutations = [] ∧ acc.2.r2_mutations = [] then
    (acc.1, fresh)
  else if m.left < acc.2.right then
    (acc.1,
     if isR2 then
       { acc.2 with r2_mutations := acc.2.r2_mutations ++ [m],
                    right := max m.right acc.2.right }
     else
       { acc.2 with r1_mutations := acc.2.r1_mutations ++ [m],
                    right := max m.right acc.2.right })
  else
    (acc.1 ++ [acc.2], fresh)

/-- Grouping of overlapping mutations (MutationProcessing.h lines
846-899): walk the union span; at each position take read 1's mutations
indexed there (in list order), then read 2's. -/
def buildGroups (r1muts r2muts : List Mutation) (left : Int) (lenN : Nat) :
    List MutationGroup :=
  let acc := (List.range lenN).foldl
    (fun acc i =>
      let acc1 := (r1muts.filter
        (fun m => decide (m.left - left = (i : Int)))).foldl
        (addToGroups false) acc
      (r2muts.filter
        (fun m => decide (m.left - left = (i : Int)))).foldl
        (addToGroups true) acc1)
    ([], ⟨0, 0, [], []⟩)
  if acc.2.r1_mutations.length > 0 ∨ acc.2.r2_mutations.length > 0 then
    acc.1 ++ [acc.2]
  else acc.1

/-- Quality sum and count over one side's mutations of a group
(MutationProcessing.h lines 910-927 / 949-966): every basecall of every
mutation plus the reference basecalls bracketing each mutation (skipped
when out of range). -/
def mutsNumDenom (muts : List Mutation) (r : MergeIn) : Int × Int :=
  muts.foldl
    (fun nd m =>
      let nd1 : Int × Int :=
        (nd.1 + (m.qual.map charVal).sum, nd.2 + m.qual.length)
      let nd2 : Int × Int :=
        match qualAt r.qual (m.left - r.left) with
        | some c => (nd1.1 + charVal c, nd1.2 + 1)
        | none => nd1
      match qualAt r.qual (m.right - r.left) with
      | some c => (nd2.1 + charVal c, nd2.2 + 1)
      | none => nd2)
    (0, 0)

/-- Quality sum and count for one side of a group (MutationProcessing.h
lines 907-985): over its own mutations if it has any, else over its
reference basecalls across the group span when it covers both ends. -/
def groupSideND (mg_left mg_right : Int) (sideMuts : List Mutation)
    (r : MergeIn) : Int × Int :=
  if sideMuts ≠ [] then
    mutsNumDenom sideMuts r
  else
    let lindex := mg_left - r.left
    let rindex := mg_right - r.left
    if 0 ≤ lindex ∧ lindex < (r.qual.length : Int) ∧
        0 ≤ rindex ∧ rindex < (r.qual.length : Int) then
      (((List.range (mg_right - mg_left + 1).toNat).map
          (fun k => charVal (r.qual.getD (lindex + k).toNat 'A'))).sum,
       ((mg_right - mg_left + 1).toNat : Int))
    else (0, 0)

/-- `float(num) / float(denom)` (or 0 when `denom = 0`), modelled over
`ℚ`.  The C++ source computes in binary32; integer-to-float conversion
is exact for these magnitudes and the division correctly rounded, so the
rounded mean is a monotone function of this exact value and all
comparisons proved here are preserved. -/
def sideMean (num denom : Int) : ℚ :=
  if denom > 0 then (num : ℚ) / (denom : ℚ) else 0

/-- `minLeft` (Mutation.h lines 269-276). -/
def minLeftM : List Mutation → Int
  | [] => -9999
  | m :: rest => rest.foldl (fun acc x => min x.left acc) m.left

/-- `maxRight` (Mutation.h lines 278-285). -/
def maxRightM : List Mutation → Int
  | [] => -9999
  | m :: rest => rest.foldl (fun acc x => max x.right acc) m.right

/-- Conflict resolution for one mutation group (MutationProcessing.h
lines 904-1024): the side with the strictly larger mean wins (read 1 on
ties); the loser's covered span is zeroed in its effective depth.  State:
(output mutations, read-1 depth, read-2 depth). -/
def processGroup (a b : MergeIn)
    (st : List Mutation × List Bool × List Bool) (mg : MutationGroup) :
    List Mutation × List Bool × List Bool :=
  let nd1 := groupSideND mg.left mg.right mg.r1_mutations a
  let nd2 := groupSideND mg.left mg.right mg.r2_mutations b
  if sideMean nd2.1 nd2.2 > sideMean nd1.1 nd1.2 then
    -- READ2 selected
    (st.1 ++ mg.r2_mutations,
     (if mg.r1_mutations ≠ [] then
        loopSet false (minLeftM mg.r1_mutations + 1 - a.left)
          (maxRightM mg.r1_mutations - (minLeftM mg.r1_mutations + 1)).toNat
          st.2.1
      else st.2.1),
     st.2.2)
  else
    -- READ1 selected
    (st.1 ++ mg.r1_mutations,
     st.2.1,
     (if mg.r2_mutations ≠ [] then
        loopSet false (minLeftM mg.r2_mutations + 1 - b.left)
          (maxRightM mg.r2_mutations - (minLeftM mg.r2_mutations + 1)).toNat
          st.2.2
      else st.2.2))

/-- `resize(n, v)` on `std::vector<bool>`: truncate or pad with `v`. -/
def resizeBool (l : List Bool) (n : Nat) (v : Bool) : List Bool :=
  l.take n ++ List.replicate (n - l.length) v

/-- Read at `p` with `.at`-and-catch semantics on a depth vector. -/
def depthAt (d : List Bool) (p : Int) : Bool :=
  if 0 ≤ p ∧ p < (d.length : Int) then d.getD p.toNat false else false

/-- The components of the merged read produced by `mergeMatePairs`. -/
structure MergeOut where
  left : Int
  right : Int
  seq : List Char
  qual : List Char
  depth : List Bool
  mapped_depth : List Bool
  mutations : List Mutation
deriving Repr, DecidableEq

/-- Core of `mergeMatePairs` (MutationProcessing.h lines 767-1059) over
the consumed fields of the two reads.  The unguarded
`indexed_r1_muts.at(m.left - left)` (line 839) throws out of the whole
function when a mutation's left bound falls outside the union span;
that is the `none` case. -/
def mergeCore (a b : MergeIn) : Option MergeOut :=
  let left := min a.left b.left
  let right := max (a.left + (a.seq.length : Int) - 1)
    (b.left + (b.seq.length : Int) - 1)
  let lenN := (right - left + 1).toNat
  if (a.mutations.all fun m =>
        decide (0 ≤ m.left - left) && decide (m.left - left < (lenN : Int))) &&
     (b.mutations.all fun m =>
        decide (0 ≤ m.left - left) && decide (m.left - left < (lenN : Int)))
  then
    let seq := (List.range lenN).map (mergedSeqChar a b left)
    let qual := (List.range lenN).map (mergedQualChar a b left)
    let groups := buildGroups a.mutations b.mutations left lenN
    let d1 := resizeBool a.depth a.seq.length true
    let d2 := resizeBool b.depth b.seq.length true
    let res := groups.foldl (processGroup a b) ([], d1, d2)
    let depth := (List.range lenN).map
      (fun i => depthAt res.2.1 (left + (i : Int) - a.left) ||
                depthAt res.2.2 (left + (i : Int) - b.left))
    some ⟨left, right, seq, qual, depth, simpleMappedDepth a b, res.1⟩
  else none

/-- `mutation::mergeMatePairs` on the two reads `[r1, r2]`
(MutationProcessing.h lines 767-1059): the merged components plus the
metadata taken from read 1. -/
def mergeMatePairs (r1 r2 : Read) : Option Read :=
  (mergeCore r1.toMergeIn r2.toMergeIn).map
    (fun out =>
      { left := out.left, right := out.right,
        strand := FORWARD, read_type := PAIRED,
        mapping_category := r1.mapping_category,
        primer_pair := r1.primer_pair,
        id := r1.id,
        seq := out.seq, qual := out.qual,
        mapped_depth := out.mapped_depth,
        depth := out.depth, count := [],
        mutations := out.mutations })

/-- **C6.** Mate-pair merging is commutative under relabeling: for two
reads agreeing on every field the merge consumes (span, strand, bases,
qualities, depth, mutations), `mergeMatePairs [r1, r2]` and
`mergeMatePairs [r2, r1]` produce the same merged sequence, quality,
depth and mapped-depth vectors and mutation list; and within each
mutation group read 2's mutations are selected exactly when its mean
quality is strictly greater than read 1's — equal means select read 1. -/
theorem mergeMatePairs_swap_symm (r1 r2 : Read)
    (h : r1.toMergeIn = r2.toMergeIn) :
    ((mergeMatePairs r1 r2).map
        (fun r => (r.seq, r.qual, r.depth, r.mapped_depth, r.mutations)) =
      (mergeMatePairs r2 r1).map
        (fun r => (r.seq, r.qual, r.depth, r.mapped_depth, r.mutations))) ∧
    (∀ (a b : MergeIn) (mg : MutationGroup)
        (st : List Mutation × List Bool × List Bool),
      (sideMean (groupSideND mg.left mg.right mg.r2_mutations b).1
          (groupSideND mg.left mg.right mg.r2_mutations b).2 >
        sideMean (groupSideND mg.left mg.right mg.r1_mutations a).1
          (groupSideND mg.left mg.right mg.r1_mutations a).2 →
        (processGroup a b st mg).1 = st.1 ++ mg.r2_mutations) ∧
      (sideMean (groupSideND mg.left mg.right mg.r2_mutations b).1
          (groupSideND mg.left mg.right mg.r2_mutations b).2 ≤
        sideMean (groupSideND mg.left mg.right mg.r1_mutations a).1
          (groupSideND mg.left mg.right mg.r1_mutations a).2 →
        (processGroup a b st mg).1 = st.1 ++ mg.r1_mutations)) := by
  constructor
  · unfold mergeMatePairs
    rw [h]
    cases mergeCore r2.toMergeIn r2.toMergeIn with
    | none => rfl
    | some out => rfl
  · intro a b mg st
    constructor
    · intro hgt
      unfold processGroup
      rw [if_pos hgt]
    · intro hle
      unfold processGroup
      rw [if_neg (not_lt.mpr hle)]

/-- Witness for C6: two concrete overlapping-span reads identical except
for their ids; the swap produces equal merged components, and the merge
actually succeeds. -/
theorem mergeMatePairs_swap_symm_witness :
    ((Read.mk 0 3 0 0 0 (-999) "mate1" "ACGT".toList "HIJK".toList
        [true, true, true, true] [true, true, true, true] []
        [Mutation.mk 0 2 ['G'] ['I'] "" false]).toMergeIn =
      (Read.mk 0 3 0 0 0 (-999) "mate2" "ACGT".toList "HIJK".toList
        [true, true, true, true] [true, true, true, true] []
        [Mutation.mk 0 2 ['G'] ['I'] "" false]).toMergeIn) ∧
    ((mergeMatePairs
        (Read.mk 0 3 0 0 0 (-999) "mate1" "ACGT".toList "HIJK".toList
          [true, true, true, true] [true, true, true, true] []
          [Mutation.mk 0 2 ['G'] ['I'] "" false])
        (Read.mk 0 3 0 0 0 (-999) "mate2" "ACGT".toList "HIJK".toList
          [true, true, true, true] [true, true, true, true] []
          [Mutation.mk 0 2 ['G'] ['I'] "" false])).map
        (fun r => (r.seq, r.qual, r.depth, r.mapped_depth, r.mutations)) =
      (mergeMatePairs
        (Read.mk 0 3 0 0 0 (-999) "mate2" "ACGT".toList "HIJK".toList
          [true, true, true, true] [true, true, true, true] []
          [Mutation.mk 0 2 ['G'] ['I'] "" false])
        (Read.mk 0 3 0 0 0 (-999) "mate1" "ACGT".toList "HIJK".toList
          [true, true, true, true] [true, true, true, true] []
          [Mutation.mk 0 2 ['G'] ['I'] "" false])).map
        (fun r => (r.seq, r.qual, r.depth, r.mapped_depth, r.mutations))) ∧
    ((mergeMatePairs
        (Read.mk 0 3 0 0 0 (-999) "mate1" "ACGT".toList "HIJK".toList
          [true, true, true, true] [true, true, true, true] []
          [Mutation.mk 0 2 ['G'] ['I'] "" false])
        (Read.mk 0 3 0 0 0 (-999) "mate2" "ACGT".toList "HIJK".toList
          [true, true, true, true] [true, true, true, true] []
          [Mutation.mk 0 2 ['G'] ['I'] "" false])).isSome = true) := by
  refine ⟨rfl, ?_, ?_⟩
  · exact (mergeMatePairs_swap_symm _ _ rfl).1
  · decide

end ShapeMapper
